import Mathlib

/-!
Portfolio page (`js/scripts.js`): project catalog, gallery and form validator

A shallow embedding of the pure and state-passing parts of `scripts.js`:

* `resolveAssetPath`, `normalizeProject` (pure helpers),
* the merge step and the card loop of `populateProjectsSection`,
* `setActiveProjectCard`, `setSpotlight`, `handleProjectSelection`
  (state passing over an explicit `GalleryState`),
* `validateFormFields` with its two regular expressions.

JavaScript strings are modelled by Lean strings (sequences of Unicode scalar
values); `length` counts UTF-16 code units.  Values read from JSON are modelled
by `JsVal`; a `TypeError` raised by the code is modelled by `none`.
-/

namespace Portfolio

/-! ## JavaScript values and strings -/

/-- The JavaScript values a field of a JSON project record is modelled with.  Numbers
are modelled by integers: the code only tests them for truthiness and identity. -/
inductive JsVal where
  | undefined
  | null
  | bool (b : Bool)
  | num (n : Int)
  | str (s : String)
  deriving DecidableEq, Repr

/-- JavaScript truthiness (`ToBoolean`). -/
def JsVal.truthy : JsVal → Bool
  | .undefined => false
  | .null => false
  | .bool b => b
  | .num n => n != 0
  | .str s => s != ""

/-- The operator `a || b` on values. -/
def JsVal.or (a b : JsVal) : JsVal := if a.truthy then a else b

/-- The test `typeof v === 'string'`. -/
def JsVal.isString : JsVal → Bool
  | .str _ => true
  | _ => false

/-- ECMAScript `WhiteSpace` and `LineTerminator` code points: what `trim` strips and
what `\s` matches. -/
def isWhiteSpace (c : Char) : Bool :=
  let n := c.toNat
  n == 0x09 || n == 0x0A || n == 0x0B || n == 0x0C || n == 0x0D || n == 0x20 ||
  n == 0xA0 || n == 0x1680 || (0x2000 ≤ n && n ≤ 0x200A) || n == 0x2028 ||
  n == 0x2029 || n == 0x202F || n == 0x205F || n == 0x3000 || n == 0xFEFF

/-- Models `String.prototype.trim` on the list of characters. -/
def trimChars (cs : List Char) : List Char :=
  (cs.dropWhile isWhiteSpace).rdropWhile isWhiteSpace

/-- Models `String.prototype.trim`. -/
def jsTrim (s : String) : String := ⟨trimChars s.data⟩

/-- Models `s.length`: the number of UTF-16 code units. -/
def jsLength (s : String) : Nat :=
  (s.data.map (fun c => if c.toNat < 0x10000 then 1 else 2)).sum

/-- Models `s.startsWith(pre)`. -/
def startsWith (s pre : String) : Bool := pre.data.isPrefixOf s.data

/-- Models `s.slice(2)` (used only behind `startsWith('../')`, where the first two code
units are the two dots). -/
def slice2 (s : String) : String := ⟨s.data.drop 2⟩

/-- Models `s.replace(/^\./, '')`: drop one leading dot, if there is one. -/
def replaceLeadingDot (s : String) : String :=
  match s.data with
  | '.' :: rest => ⟨rest⟩
  | _ => s

/-- Models `/^(https?:)?\/\//.test(s)`: the optional group is absent, `http:` or `https:`. -/
def ABSOLUTE_URL_test (s : String) : Bool :=
  startsWith s "//" || startsWith s "http://" || startsWith s "https://"

/-! ## Constants -/

structure AssetPaths where
  headshotFallback : String
  cardPlaceholder : String
  spotlightPlaceholder : String

def ASSET_PATHS : AssetPaths where
  headshotFallback := "./images/profile-placeholder.jpg"
  cardPlaceholder := "./images/card_placeholder_bg.webp"
  spotlightPlaceholder := "./images/spotlight_placeholder_bg.webp"

def MAX_MESSAGE_LENGTH : Nat := 300

/-! ## Asset path resolver -/

/-- Models `resolveAssetPath(candidatePath, fallback)`. -/
def resolveAssetPath (candidatePath : JsVal) (fallback : String) : String :=
  match candidatePath with
  | .str c =>
    if jsTrim c = "" then fallback
    else
      let trimmed := jsTrim c
      if ABSOLUTE_URL_test trimmed then trimmed
      else if startsWith trimmed "../" then "." ++ slice2 trimmed
      else if startsWith trimmed "./" || startsWith trimmed "/" then trimmed
      else "./" ++ replaceLeadingDot trimmed
  | _ => fallback

/-! ## Project records and the normalizer -/

/-- A project object: the seven properties the code reads (a property that is not
there reads as `undefined`). -/
structure Project where
  project_id : JsVal := .undefined
  project_name : JsVal := .undefined
  short_description : JsVal := .undefined
  long_description : JsVal := .undefined
  card_image : JsVal := .undefined
  spotlight_image : JsVal := .undefined
  url : JsVal := .undefined
  deriving DecidableEq, Repr

/-- An element of the fetched array: an object, or (`none`) `null` or any other JSON
value carrying none of the seven properties. -/
abbrev RawProject := Option Project

/-- The read `project?.field`. -/
def RawProject.field (project : RawProject) (f : Project → JsVal) : JsVal :=
  match project with
  | some p => f p
  | none => .undefined

/-- The expression `v?.trim()`: `undefined` on a nullish value, the trimmed string on a
string, and a `TypeError` (`none`) on any other value, which has no `trim` method. -/
def optTrim : JsVal → Option JsVal
  | .undefined => some .undefined
  | .null => some .undefined
  | .str s => some (.str (jsTrim s))
  | _ => none

/-- The expression `v?.trim() || dflt`. -/
def trimOr (v : JsVal) (dflt : String) : Option JsVal :=
  (optTrim v).map (fun t => t.or (.str dflt))

/-- Models `normalizeProject(project, index)`; `none` when the code throws a `TypeError`. -/
def normalizeProject (project : RawProject) (index : Nat) : Option Project :=
  let fallbackId := "project_" ++ toString (index + 1)
  (trimOr (project.field (·.project_name)) "Untitled Project").bind fun name =>
  (trimOr (project.field (·.short_description)) "Details coming soon.").bind fun short =>
  (trimOr (project.field (·.long_description))
      "Check back soon for a full project description.").bind fun long =>
  (trimOr (project.field (·.url)) "").bind fun url =>
  some
    { project_id := (project.field (·.project_id)).or (.str fallbackId)
      project_name := name
      short_description := short
      long_description := long
      card_image :=
        .str (resolveAssetPath (project.field (·.card_image)) ASSET_PATHS.cardPlaceholder)
      spotlight_image :=
        .str (resolveAssetPath (project.field (·.spotlight_image))
          ASSET_PATHS.spotlightPlaceholder)
      url := url }

/-! ## Built-in projects -/

def CUSTOM_PROJECTS : List Project :=
  [ { project_id := .str "project_ahmad_portfolio_scss"
      project_name := .str "Portfolio SCSS"
      short_description := .str "Responsive personal site themed with modular SCSS."
      long_description := .str "Showcases my design system experiments using SCSS partials, mixins, and reusable components to keep styles scalable while presenting my work cleanly."
      card_image := .str "./images/personal_site_card.webp"
      spotlight_image := .str "./images/personal_site_spotlight.webp"
      url := .str "https://github.com/Ahmed-Herzalla0/Portfolio-scss" },
    { project_id := .str "project_ahmad_bizgrow"
      project_name := .str "BizGrow Landing"
      short_description := .str "Marketing landing page with polished animations."
      long_description := .str "Landing experience for a fictional SaaS brand featuring scroll-triggered reveals, reusable layout utilities, and performance-conscious asset loading."
      card_image := .str "./images/commerce_card.webp"
      spotlight_image := .str "./images/commerce_spotlight.webp"
      url := .str "https://github.com/Ahmed-Herzalla0/BizGrow-Landing-Website" },
    { project_id := .str "project_ahmad_kasper"
      project_name := .str "Kasper Template"
      short_description := .str "PSD-to-HTML conversion targeting pixel precision."
      long_description := .str "Translated the Kasper PSD into semantic HTML and CSS, focusing on component structure, typography scales, and responsive behaviour without frameworks."
      card_image := .str "./images/social_media_card.webp"
      spotlight_image := .str "./images/social_media_spotlight.webp"
      url := .str "https://github.com/Ahmed-Herzalla0/Kasper" },
    { project_id := .str "project_ahmad_logic_circuit"
      project_name := .str "Logic Circuit Basics"
      short_description := .str "Digital logic exercises with simulation files."
      long_description := .str "Collection of combinational and sequential circuit designs that explore timers, multiplexers, and counters while documenting implementation trade-offs."
      card_image := .str "./images/calculator_card.webp"
      spotlight_image := .str "./images/calculator_spotlight.webp"
      url := .str "https://github.com/Ahmed-Herzalla0/Basic-Logic-circut-main" },
    { project_id := .str "project_ahmad_elzero_playground"
      project_name := .str "Elzero Challenges"
      short_description := .str "Front-end practice solutions from Elzero Web School."
      long_description := .str "A living archive of UI exercises, layout drills, and DOM manipulations completed while following Elzero Web School training content."
      card_image := .str "./images/blog_card.webp"
      spotlight_image := .str "./images/blog_spotlight.webp"
      url := .str "https://github.com/Ahmed-Herzalla0/Elzero" },
    { project_id := .str "project_ahmad_leon_agency"
      project_name := .str "Leon Agency Template"
      short_description := .str "Creative agency landing built from a PSD brief."
      long_description := .str "Implements a clean agency experience emphasising grid alignment, scroll rhythm, and reusable hero sections derived from the Leon PSD design."
      card_image := .str "./images/music_app_card.webp"
      spotlight_image := .str "./images/music_app_spotlight.webp"
      url := .str "https://github.com/Ahmed-Herzalla0/Leon-PSD-Agency-Template" } ]

/-- Models `getCustomProjects()`: a shallow copy of every built-in record. -/
def getCustomProjects : List Project := CUSTOM_PROJECTS.map (fun project => project)

/-! ## Catalog merge (the first half of `populateProjectsSection`) -/

/-- What `await fetchJson('./data/projectsData.json')` leaves in `rawProjects`. -/
inductive Fetched where
  /-- Models `fetchJson` threw (network error or non-success status); `rawProjects` stays `[]`. -/
  | failed
  /-- The payload parsed to something that is not an array (`null`, an object, ...). -/
  | notArray
  /-- The payload parsed to an array. -/
  | array (items : List RawProject)

/-- The value of `rawProjects` after the `try`/`catch` and the `Array.isArray` guard. -/
def Fetched.rawProjects : Fetched → List RawProject
  | .failed => []
  | .notArray => []
  | .array items => items

/-- The initial `existingIds`: the `project_id`s of `rawProjects` that are non-empty
strings. -/
def existingIdsOf (rawProjects : List RawProject) : List JsVal :=
  (rawProjects.map (fun project => project.field (·.project_id))).filter
    (fun projectId => projectId.isString && projectId.truthy)

/-- One turn of `customProjects.forEach`, on the pair (`rawProjects`, `existingIds`). -/
def pushCustom (acc : List RawProject × List JsVal) (project : Project) :
    List RawProject × List JsVal :=
  if project.project_id ∈ acc.2 then acc
  else (acc.1 ++ [some project], acc.2 ++ [project.project_id])

/-- The merge step of `populateProjectsSection`: `rawProjects` after the `forEach`
over the built-ins and the last-resort push. -/
def mergeProjects (rawProjects : List RawProject) (customProjects : List Project) :
    List RawProject :=
  let existingIds := existingIdsOf rawProjects
  let merged := (customProjects.foldl pushCustom (rawProjects, existingIds)).1
  match customProjects with
  | first :: _ => if merged.length = 0 then merged ++ [some first] else merged
  | [] => merged

/-! ## Gallery state -/

/-- A project card element: the id its handlers captured, what it shows, and the
class tokens and attribute the gallery toggles. -/
structure Card where
  projectId : JsVal
  title : JsVal
  teaser : JsVal
  backgroundImage : String
  active : Bool := false
  inactive : Bool := false
  ariaCurrent : Bool := false
  deriving DecidableEq, Repr

/-- The spotlight call-to-action link. -/
structure SpotlightLink where
  textContent : String := "Click here to see more..."
  href : Option JsVal := none
  target : Option String := none
  rel : Option String := none
  inactive : Bool := false
  ariaDisabled : Bool := false
  tabIndex : Int := 0
  pointerEvents : String := ""
  deriving DecidableEq, Repr

/-- The elements built by `buildSpotlightStructure` (values as assigned to
`textContent`). -/
structure SpotlightElements where
  title : JsVal := .str ""
  description : JsVal := .str ""
  link : SpotlightLink := {}
  deriving DecidableEq, Repr

/-- The module-level state together with the rendered cards and spotlight. -/
structure GalleryState where
  /-- The `Map` `projectStore`, in insertion order. -/
  projectStore : List (JsVal × Project) := []
  /-- The cards appended so far. -/
  cards : List Card := []
  /-- The card `activeProjectCard` refers to, as a position in `cards`. -/
  activeProjectCard : Option Nat := none
  /-- The variable `spotlightElements` (`none` for `null`). -/
  spotlightElements : Option SpotlightElements := none
  /-- The `background-image` of `#projectSpotlight`. -/
  spotlightBackground : String := ""
  deriving DecidableEq, Repr

/-- Models `projectStore.get(key)`. -/
def mapGet (m : List (JsVal × Project)) (key : JsVal) : Option Project :=
  (m.find? (fun e => e.1 == key)).map (·.2)

/-- Models `projectStore.set(key, value)`: the entry with that key is updated in place, a new
key is appended. -/
def mapSet : List (JsVal × Project) → JsVal → Project → List (JsVal × Project)
  | [], key, value => [(key, value)]
  | e :: m, key, value => if e.1 == key then (e.1, value) :: m else e :: mapSet m key value

/-- Apply `f` to the element at position `i`. -/
def modifyAt {α : Type} (f : α → α) : Nat → List α → List α
  | _, [] => []
  | 0, x :: xs => f x :: xs
  | i + 1, x :: xs => x :: modifyAt f i xs

/-- Models `buildSpotlightStructure()`, given whether `#spotlightTitles` exists. -/
def buildSpotlightStructure (hasSpotlightTitles : Bool) : Option SpotlightElements :=
  if hasSpotlightTitles then some {} else none

/-- Models `buildProjectCard(project)`. -/
def buildProjectCard (project : Project) : Card where
  projectId := project.project_id
  title := project.project_name
  teaser := project.short_description
  backgroundImage :=
    "url('" ++ resolveAssetPath project.card_image ASSET_PATHS.cardPlaceholder ++ "')"

/-- Models `setActiveProjectCard(card)`. -/
def setActiveProjectCard (st : GalleryState) (card : Nat) : GalleryState :=
  let cards1 :=
    match st.activeProjectCard with
    | some previous =>
      if previous ≠ card then
        modifyAt (fun c => { c with active := false, inactive := true, ariaCurrent := false })
          previous st.cards
      else st.cards
    | none => st.cards
  { st with
    cards := modifyAt (fun c => { c with active := true, inactive := false, ariaCurrent := true })
      card cards1
    activeProjectCard := some card }

/-- Models `setSpotlight(project)` (the element `#projectSpotlight` exists whenever the
gallery was rendered). -/
def setSpotlight (st : GalleryState) (project : Project) : GalleryState :=
  match st.spotlightElements with
  | none => st
  | some els =>
    let spotlightPath :=
      resolveAssetPath project.spotlight_image ASSET_PATHS.spotlightPlaceholder
    let link : SpotlightLink :=
      if project.url.truthy then
        { els.link with
          textContent := "Click here to see more..."
          href := some project.url
          target := some "_blank"
          rel := some "noopener noreferrer"
          inactive := false
          ariaDisabled := false
          tabIndex := 0
          pointerEvents := "auto" }
      else
        { els.link with
          textContent := "Project link coming soon..."
          href := none
          ariaDisabled := true
          inactive := true
          tabIndex := -1
          pointerEvents := "none" }
    { st with
      spotlightBackground := "url('" ++ spotlightPath ++ "')"
      spotlightElements := some
        { title := project.project_name, description := project.long_description, link := link } }

/-- Models `handleProjectSelection(projectId, card)`. -/
def handleProjectSelection (st : GalleryState) (projectId : JsVal) (card : Nat) :
    GalleryState :=
  match mapGet st.projectStore projectId with
  | none => st
  | some project => setSpotlight (setActiveProjectCard st card) project

/-- The `click` listener (and the `Enter`/space `keydown` listener) installed on the
card at position `card` by `buildProjectCard`: `handleProjectSelection(project.project_id,
card)` with the id the card was built from. -/
def clickCard (st : GalleryState) (card : Nat) : GalleryState :=
  match st.cards[card]? with
  | some c => handleProjectSelection st c.projectId card
  | none => st

/-- The loop `rawProjects.forEach((rawProject, index) => ...)` of
`populateProjectsSection`, from position `index` on; `none` when `normalizeProject`
throws. -/
def cardLoop : List RawProject → Nat → GalleryState → Option GalleryState
  | [], _, st => some st
  | rawProject :: rest, index, st =>
    match normalizeProject rawProject index with
    | none => none
    | some normalizedProject =>
      let st1 : GalleryState :=
        { st with
          projectStore := mapSet st.projectStore normalizedProject.project_id normalizedProject }
      let projectCard := st1.cards.length
      let st2 : GalleryState :=
        { st1 with cards := st1.cards ++ [buildProjectCard normalizedProject] }
      let st3 : GalleryState :=
        if index = 0 then setSpotlight (setActiveProjectCard st2 projectCard) normalizedProject
        else { st2 with cards := modifyAt (fun c => { c with inactive := true }) projectCard st2.cards }
      cardLoop rest (index + 1) st3

/-- The render targets `populateProjectsSection` looks up. -/
structure Page where
  projectList : Bool := true
  projectSpotlight : Bool := true
  spotlightTitles : Bool := true

/-- How a call of `populateProjectsSection` ends. -/
inductive Populated where
  /-- A render target is missing: `return null`. -/
  | skipped
  /-- A `TypeError` escaped the card loop; no card was appended to the page. -/
  | threw
  /-- The cards were appended to `#projectList`. -/
  | rendered (st : GalleryState)
  deriving DecidableEq, Repr

/-- Models `populateProjectsSection()`, started from the initial module state, with the
built-in list as a parameter (`getCustomProjects()` in the code). -/
def populateProjectsSection (page : Page) (fetched : Fetched) (customProjects : List Project) :
    Populated :=
  if !page.projectList || !page.projectSpotlight then .skipped
  else
    let st0 : GalleryState := { spotlightElements := buildSpotlightStructure page.spotlightTitles }
    let rawProjects := mergeProjects fetched.rawProjects customProjects
    match cardLoop rawProjects 0 st0 with
    | none => .threw
    | some st => .rendered st

/-! ## Form validator -/

/-- The characters of the class `[a-zA-Z0-9@._-\s]` (without the `u` flag the `-`
between `_` and `\s` is a literal hyphen). -/
def isLegalChar (c : Char) : Bool :=
  c.isLower || c.isUpper || c.isDigit || c == '@' || c == '.' || c == '_' || c == '-' ||
    isWhiteSpace c

/-- Models `ILLEGAL_CHAR_PATTERN.test(s)` for `/[^a-zA-Z0-9@._-\s]/`. -/
def ILLEGAL_CHAR_PATTERN_test (s : String) : Bool :=
  s.data.any (fun c => !isLegalChar c)

/-- A piece of an anchored pattern: a character class taken once or one or more
times. -/
inductive Piece where
  | one (cls : Char → Bool)
  | plus (cls : Char → Bool)

/-- Backtracking match of `^p₁p₂...pₙ$` against a whole string. -/
def matchPieces : List Piece → List Char → Bool
  | [], cs => cs.isEmpty
  | .one _ :: _, [] => false
  | .one cls :: ps, c :: cs => cls c && matchPieces ps cs
  | .plus _ :: _, [] => false
  | .plus cls :: ps, c :: cs => cls c && (matchPieces (.plus cls :: ps) cs || matchPieces ps cs)

/-- The class `[^\s@]`. -/
def notSpaceAt (c : Char) : Bool := !isWhiteSpace c && c != '@'

/-- Models `EMAIL_VALIDATION_PATTERN.test(s)` for `/^[^\s@]+@[^\s@]+\.[^\s@]+$/`. -/
def EMAIL_VALIDATION_PATTERN_test (s : String) : Bool :=
  matchPieces
    [.plus notSpaceAt, .one (· == '@'), .plus notSpaceAt, .one (· == '.'), .plus notSpaceAt]
    s.data

/-- The object returned by `validateFormFields`. -/
structure Validation where
  email : String := ""
  message : String := ""
  deriving DecidableEq, Repr

/-- Models `validateFormFields(email, message)`. -/
def validateFormFields (email message : String) : Validation :=
  let emailError :=
    if email = "" then "Please enter your email address."
    else if ILLEGAL_CHAR_PATTERN_test email then
      "Remove special characters from your email address."
    else if !EMAIL_VALIDATION_PATTERN_test email then "Please enter a valid email address."
    else ""
  let trimmedMessage := jsTrim message
  let messageError :=
    if trimmedMessage = "" then "Please enter a message before submitting."
    else if ILLEGAL_CHAR_PATTERN_test message then
      "Please remove special characters from your message."
    else if jsLength message > MAX_MESSAGE_LENGTH then
      "Please keep your message within " ++ toString MAX_MESSAGE_LENGTH ++ " characters."
    else ""
  { email := emailError, message := messageError }

/-- The call made by the form's `submit` listener: the email input is trimmed, the
message is passed as typed. -/
def submitValidation (emailInput messageInput : String) : Validation :=
  validateFormFields (jsTrim emailInput) messageInput

/-! ## Predicates and reference functions used in the statements -/

/-- No white space at the front. -/
def StartsClean (l : List Char) : Prop := ∀ c, l.head? = some c → isWhiteSpace c = false

/-- No white space at the back. -/
def EndsClean (l : List Char) : Prop := ∀ c, l.getLast? = some c → isWhiteSpace c = false

/-- An optional string: a string, or absent (`undefined`, or `null` in JSON). -/
def JsVal.isOptString : JsVal → Bool
  | .undefined => true
  | .null => true
  | .str _ => true
  | _ => false

/-- A project object of the data model: every field is an optional string. -/
def Project.wellTyped (p : Project) : Bool :=
  p.project_id.isOptString && p.project_name.isOptString &&
  p.short_description.isOptString && p.long_description.isOptString &&
  p.card_image.isOptString && p.spotlight_image.isOptString && p.url.isOptString

/-- The fields `normalizeProject` calls `trim` on (`project_name`, `short_description`,
`long_description`, `url`) are strings or absent; `project_id` and the two image fields
may hold any value. -/
def Project.textTyped (p : Project) : Bool :=
  p.project_name.isOptString && p.short_description.isOptString &&
  p.long_description.isOptString && p.url.isOptString

/-- A raw record on which no `trim` call of `normalizeProject` can throw: `null`, or an
object whose four trimmed fields are strings or absent. -/
def RawProject.textTyped : RawProject → Bool
  | none => true
  | some p => p.textTyped

/-- A raw record of the data model: `null`, or an object whose fields are optional
strings. -/
def RawProject.wellTyped : RawProject → Bool
  | none => true
  | some p => p.wellTyped

/-- What `project?.project_id || fallbackId` gives for a raw id that is a string or
absent: the raw id when it is a non-empty string, otherwise the synthesized
`project_<position+1>`.  The code does not trim the id, so an id of white space only is
a non-empty string here and is kept as it is. -/
def idOrSynthesized (rawId : JsVal) (position : Nat) : JsVal :=
  match rawId with
  | .str s => if s = "" then .str ("project_" ++ toString (position + 1)) else .str s
  | _ => .str ("project_" ++ toString (position + 1))

/-- In the words of the specification: the trimmed raw text when it is non-blank after
trimming, otherwise the default. -/
def trimmedOrDefault (rawText : JsVal) (dflt : String) : String :=
  match rawText with
  | .str s => if jsTrim s = "" then dflt else jsTrim s
  | _ => dflt

/-- In the words of the specification: the `local@domain.tld` shape, three non-empty
runs of characters that are neither white space nor `@`, joined by one `@` and one
`.`. -/
def EmailShape (s : String) : Prop :=
  ∃ loc dom tld : List Char, loc ≠ [] ∧ dom ≠ [] ∧ tld ≠ [] ∧
    (∀ x ∈ loc, notSpaceAt x = true) ∧ (∀ x ∈ dom, notSpaceAt x = true) ∧
    (∀ x ∈ tld, notSpaceAt x = true) ∧ s.data = loc ++ '@' :: (dom ++ '.' :: tld)

/-- The built-in records the `forEach` of the merge step pushes, given the ids seen
so far. -/
def keptFrom (ids : List JsVal) : List Project → List Project
  | [] => []
  | b :: bs =>
    if b.project_id ∈ ids then keptFrom ids bs
    else b :: keptFrom (ids ++ [b.project_id]) bs

/-- In the words of the specification: `v` is a well-formed id of a fetched record, a
non-empty string that some fetched record carries as its `project_id`. -/
def isFetchedId (fetched : List RawProject) (v : JsVal) : Bool :=
  v.isString && v.truthy && fetched.any (fun r => r.field (·.project_id) == v)

/-- In the words of the specification: the built-in at position `ib.1` is appended when
its id is neither a well-formed id of a fetched record nor the id of an earlier
built-in. -/
def isAppended (fetched : List RawProject) (builtins : List Project)
    (ib : Nat × Project) : Bool :=
  !isFetchedId fetched ib.2.project_id &&
  !((builtins.take ib.1).any (fun b => b.project_id == ib.2.project_id))

/-- In the words of the specification: the fetched records in their order, then the
appended built-ins in built-in order. -/
def mergedBySpec (fetched : List RawProject) (builtins : List Project) : List RawProject :=
  fetched ++ ((builtins.enum.filter (isAppended fetched builtins)).map (fun ib => some ib.2))

/-- The records of `l` that carry the id `v`. -/
def withId (v : JsVal) (l : List RawProject) : List RawProject :=
  l.filter (fun r => r.field (·.project_id) == v)

/-- The records `normalizeProject` returns for the list, from position `index` on;
`none` when one of the calls throws. -/
def normalizeAll : List RawProject → Nat → Option (List Project)
  | [], _ => some []
  | r :: rs, index =>
    match normalizeProject r index with
    | none => none
    | some n => (normalizeAll rs (index + 1)).map (n :: ·)

/-- The store after `projectStore.set(n.project_id, n)` for every record of the list. -/
def storeAll (m : List (JsVal × Project)) (nps : List Project) : List (JsVal × Project) :=
  nps.foldl (fun acc n => mapSet acc n.project_id n) m

/-- The card of a record at a position other than 0: built, then marked `inactive`. -/
def inactiveCard (n : Project) : Card := { buildProjectCard n with inactive := true }

/-- The card of the record at position 0: built, then made the active card. -/
def activeCard (n : Project) : Card :=
  { buildProjectCard n with active := true, inactive := false, ariaCurrent := true }

/-- The state the card loop reaches from the initial module state: the first record is
stored, shown as the active card and put in the spotlight, the others are stored and
shown as inactive cards. -/
def renderedState (els : Option SpotlightElements) (n0 : Project) (rest : List Project) :
    GalleryState :=
  let st1 := setSpotlight
    (setActiveProjectCard
      { projectStore := [(n0.project_id, n0)], cards := [buildProjectCard n0],
        spotlightElements := els } 0) n0
  { st1 with
    projectStore := storeAll st1.projectStore rest
    cards := st1.cards ++ rest.map inactiveCard }

/-- A record produced by `normalizeProject`. -/
def IsNormalized (e : Project) : Prop := ∃ r index, normalizeProject r index = some e

/-- Exactly one card is marked active (has `active`, lacks `inactive`), it is the card
`activeProjectCard` refers to, and every other card is marked inactive (has `inactive`,
lacks `active`). -/
def OneActive (st : GalleryState) : Prop :=
  ∃ a, st.activeProjectCard = some a ∧ a < st.cards.length ∧
    ∀ i c, st.cards[i]? = some c →
      (c.active = decide (i = a) ∧ c.inactive = decide (i ≠ a))

/-- The spotlight shows the entry: title, description and background are the entry's
`project_name`, `long_description` and (resolved) `spotlight_image`; with a non-empty
`url` the link is enabled and points at it (`_blank`, `noopener noreferrer`), with an
empty `url` it is disabled (no `href`, `aria-disabled`, placeholder text). -/
def SpotlightShows (st : GalleryState) (entry : Project) : Prop :=
  ∃ els, st.spotlightElements = some els ∧
    els.title = entry.project_name ∧
    els.description = entry.long_description ∧
    (∃ path, entry.spotlight_image = .str path ∧
      st.spotlightBackground = "url('" ++ path ++ "')") ∧
    ∃ u, entry.url = .str u ∧
      (u ≠ "" →
        els.link.href = some (.str u) ∧ els.link.target = some "_blank" ∧
        els.link.rel = some "noopener noreferrer" ∧ els.link.inactive = false ∧
        els.link.ariaDisabled = false ∧ els.link.textContent = "Click here to see more...") ∧
      (u = "" →
        els.link.href = none ∧ els.link.ariaDisabled = true ∧ els.link.inactive = true ∧
        els.link.textContent = "Project link coming soon...")

/-- What every rendered gallery state satisfies: the spotlight elements exist, every
card's id is a key of the store, and every stored entry is a normalized record. -/
def GalleryInv (st : GalleryState) : Prop :=
  st.spotlightElements.isSome = true ∧
  (∀ c ∈ st.cards, ∃ e, mapGet st.projectStore c.projectId = some e) ∧
  (∀ k e, mapGet st.projectStore k = some e → IsNormalized e)

/-- The spotlight mirrors the catalog entry of the active card. -/
def SpotlightMirrorsActive (st : GalleryState) : Prop :=
  ∃ a card entry, st.activeProjectCard = some a ∧ st.cards[a]? = some card ∧
    mapGet st.projectStore card.projectId = some entry ∧ SpotlightShows st entry

/-- A payload in which two records share the id `a`. -/
def duplicateIdFetch : Fetched :=
  .array
    [some { project_id := .str "a", project_name := .str "First" },
     some { project_id := .str "a", project_name := .str "Second" }]

/-- The gallery rendered from `duplicateIdFetch` and `CUSTOM_PROJECTS`. -/
def duplicateIdState : GalleryState :=
  renderedState (some {})
    { project_id := .str "a"
      project_name := .str "First"
      short_description := .str "Details coming soon."
      long_description := .str "Check back soon for a full project description."
      card_image := .str "./images/card_placeholder_bg.webp"
      spotlight_image := .str "./images/spotlight_placeholder_bg.webp"
      url := .str "" }
    ({ project_id := .str "a"
       project_name := .str "Second"
       short_description := .str "Details coming soon."
       long_description := .str "Check back soon for a full project description."
       card_image := .str "./images/card_placeholder_bg.webp"
       spotlight_image := .str "./images/spotlight_placeholder_bg.webp"
       url := .str "" } :: CUSTOM_PROJECTS)

/-! ## Lemmas on strings and trimming -/

theorem string_eq_empty_iff (s : String) : s = "" ↔ s.data = [] := by
  constructor
  · rintro rfl; rfl
  · intro h; exact String.ext h

theorem dropWhile_of_startsClean {l : List Char} (h : StartsClean l) :
    l.dropWhile isWhiteSpace = l := by
  cases l with
  | nil => rfl
  | cons c cs =>
    have hc : isWhiteSpace c = false := h c rfl
    simp [List.dropWhile_cons, hc]

theorem rdropWhile_of_endsClean {l : List Char} (h : EndsClean l) :
    l.rdropWhile isWhiteSpace = l := by
  rw [List.rdropWhile_eq_self_iff]
  intro hl
  have := h (l.getLast hl) (List.getLast?_eq_getLast l hl)
  simp [this]

theorem trimChars_of_clean {l : List Char} (h₁ : StartsClean l) (h₂ : EndsClean l) :
    trimChars l = l := by
  unfold trimChars
  rw [dropWhile_of_startsClean h₁, rdropWhile_of_endsClean h₂]

theorem startsClean_dropWhile (l : List Char) : StartsClean (l.dropWhile isWhiteSpace) := by
  intro c hc
  have := List.head?_dropWhile_not isWhiteSpace l
  rw [hc] at this
  exact this

theorem startsClean_trimChars (l : List Char) : StartsClean (trimChars l) := by
  intro c hc
  unfold trimChars at hc
  obtain ⟨ys, hys⟩ := List.head?_eq_some_iff.mp hc
  obtain ⟨t, ht⟩ := List.rdropWhile_prefix isWhiteSpace (l.dropWhile isWhiteSpace)
  rw [hys] at ht
  apply startsClean_dropWhile l c
  rw [← ht]
  rfl

theorem endsClean_trimChars (l : List Char) : EndsClean (trimChars l) := by
  intro c hc
  unfold trimChars at hc
  by_cases hl : (l.dropWhile isWhiteSpace).rdropWhile isWhiteSpace = []
  · rw [hl] at hc; simp at hc
  · have h := List.rdropWhile_last_not isWhiteSpace _ hl
    rw [List.getLast?_eq_getLast _ hl] at hc
    cases hc
    simpa using h

theorem trimChars_idem (l : List Char) : trimChars (trimChars l) = trimChars l :=
  trimChars_of_clean (startsClean_trimChars l) (endsClean_trimChars l)

theorem jsTrim_idem (s : String) : jsTrim (jsTrim s) = jsTrim s := by
  apply String.ext
  simp [jsTrim, trimChars_idem]

theorem jsTrim_of_clean {s : String} (h₁ : StartsClean s.data) (h₂ : EndsClean s.data) :
    jsTrim s = s := by
  apply String.ext
  simp [jsTrim, trimChars_of_clean h₁ h₂]

/-! ## Lemmas on the asset path resolver -/

theorem startsWith_iff (s pre : String) :
    startsWith s pre = true ↔ ∃ rest : String, s = pre ++ rest := by
  unfold startsWith
  rw [ List.isPrefixOf_iff_prefix]
  constructor
  · rintro ⟨t, ht⟩
    exact ⟨⟨t⟩, String.ext (by simp [ht])⟩
  · rintro ⟨rest, rfl⟩
    exact ⟨rest.data, by simp⟩

theorem resolveAssetPath_not_string (v : JsVal) (fb : String) (h : v.isString = false) :
    resolveAssetPath v fb = fb := by
  cases v <;> simp_all [resolveAssetPath, JsVal.isString]

theorem resolveAssetPath_blank (c fb : String) (h : jsTrim c = "") :
    resolveAssetPath (.str c) fb = fb := by
  simp [resolveAssetPath, h]

theorem resolveAssetPath_parent (c rest fb : String) (h : jsTrim c = "../" ++ rest) :
    resolveAssetPath (.str c) fb = "./" ++ rest := by
  have hne : ¬ ("../" ++ rest = "") := by simp [String.ext_iff]
  have habs : ABSOLUTE_URL_test ("../" ++ rest) = false := by
    simp [ABSOLUTE_URL_test, startsWith, List.isPrefixOf]
  have hpar : startsWith ("../" ++ rest) "../" = true := by
    simp [startsWith, List.isPrefixOf]
  have hsl : "." ++ slice2 ("../" ++ rest) = "./" ++ rest := by
    apply String.ext
    simp [slice2]
  simp only [resolveAssetPath, h, hne, habs, hpar, hsl, if_true, if_false]
  simp

theorem resolveAssetPath_other (c fb : String) (hne : jsTrim c ≠ "")
    (habs : ABSOLUTE_URL_test (jsTrim c) = false)
    (hpar : startsWith (jsTrim c) "../" = false)
    (hcur : startsWith (jsTrim c) "./" = false)
    (hroot : startsWith (jsTrim c) "/" = false) :
    resolveAssetPath (.str c) fb = "./" ++ replaceLeadingDot (jsTrim c) := by
  simp [resolveAssetPath, hne, habs, hpar, hcur, hroot]

theorem replaceLeadingDot_dot (rest : String) : replaceLeadingDot ("." ++ rest) = rest := by
  apply String.ext
  simp [replaceLeadingDot]

theorem replaceLeadingDot_other (s : String) (h : startsWith s "." = false) :
    replaceLeadingDot s = s := by
  unfold replaceLeadingDot
  split
  · rename_i rest heq
    simp [startsWith, heq, List.isPrefixOf] at h
  · rfl

theorem endsClean_of_append {a rest : List Char} (h : EndsClean (a ++ rest)) :
    EndsClean rest := by
  intro c hc
  apply h c
  have hne : rest ≠ [] := by
    intro h0
    simp [h0] at hc
  rw [List.getLast?_append_of_ne_nil _ hne]
  exact hc

theorem endsClean_dot_slash {rest : List Char} (h : EndsClean rest) :
    EndsClean ('.' :: '/' :: rest) := by
  intro c hc
  cases rest with
  | nil =>
    simp at hc
    subst hc
    decide
  | cons x xs =>
    apply h c
    simpa [List.getLast?_cons_cons] using hc

theorem endsClean_jsTrim (c : String) : EndsClean (jsTrim c).data := endsClean_trimChars _

theorem startsClean_jsTrim (c : String) : StartsClean (jsTrim c).data := startsClean_trimChars _

/-- A path that already starts with `./` and does not end in white space is returned
as it is. -/
theorem resolveAssetPath_current (rest : List Char) (fb : String) (h : EndsClean rest) :
    resolveAssetPath (.str ⟨'.' :: '/' :: rest⟩) fb = ⟨'.' :: '/' :: rest⟩ := by
  have hs : StartsClean ('.' :: '/' :: rest) := by
    intro c hc
    simp at hc
    subst hc
    decide
  have ht : jsTrim ⟨'.' :: '/' :: rest⟩ = ⟨'.' :: '/' :: rest⟩ :=
    jsTrim_of_clean hs (endsClean_dot_slash h)
  have hne : ¬ ((⟨'.' :: '/' :: rest⟩ : String) = "") := by simp [String.ext_iff]
  have habs : ABSOLUTE_URL_test ⟨'.' :: '/' :: rest⟩ = false := by
    simp [ABSOLUTE_URL_test, startsWith, List.isPrefixOf]
  have hpar : startsWith ⟨'.' :: '/' :: rest⟩ "../" = false := by
    simp [startsWith, List.isPrefixOf]
  have hcur : startsWith ⟨'.' :: '/' :: rest⟩ "./" = true := by
    simp [startsWith, List.isPrefixOf]
  simp [resolveAssetPath, ht, hne, habs, hpar, hcur]

/-- Resolving a resolved path again changes nothing, for a fallback that resolves to
itself. -/
theorem resolveAssetPath_idem (v : JsVal) (fb : String)
    (hfb : resolveAssetPath (.str fb) fb = fb) :
    resolveAssetPath (.str (resolveAssetPath v fb)) fb = resolveAssetPath v fb := by
  by_cases hv : v.isString = false
  · rw [resolveAssetPath_not_string v fb hv, hfb]
  obtain ⟨c, rfl⟩ : ∃ c, v = .str c := by
    cases v <;> simp_all [JsVal.isString]
  by_cases hblank : jsTrim c = ""
  · rw [resolveAssetPath_blank c fb hblank, hfb]
  by_cases habs : ABSOLUTE_URL_test (jsTrim c) = true
  · have h1 : resolveAssetPath (.str c) fb = jsTrim c := by
      simp [resolveAssetPath, hblank, habs]
    rw [h1]
    simp [resolveAssetPath, jsTrim_idem, hblank, habs]
  by_cases hpar : startsWith (jsTrim c) "../" = true
  · obtain ⟨rest, hrest⟩ := (startsWith_iff _ _).mp hpar
    rw [resolveAssetPath_parent c rest fb hrest]
    have hclean : EndsClean rest.data := by
      have := endsClean_jsTrim c
      rw [hrest] at this
      simp only [String.data_append] at this
      exact endsClean_of_append this
    have heq : "./" ++ rest = ⟨'.' :: '/' :: rest.data⟩ := String.ext (by simp)
    rw [heq]
    exact resolveAssetPath_current _ fb hclean
  by_cases hcur : (startsWith (jsTrim c) "./" || startsWith (jsTrim c) "/") = true
  · have h1 : resolveAssetPath (.str c) fb = jsTrim c := by
      simp only [resolveAssetPath, hblank, habs, hpar, hcur, if_true, if_false]
      simp
    rw [h1]
    simp only [resolveAssetPath, jsTrim_idem, hblank, habs, hpar, hcur, if_true, if_false]
    simp
  · have hcur1 : startsWith (jsTrim c) "./" = false := by
      cases h : startsWith (jsTrim c) "./" <;> simp_all
    have hcur2 : startsWith (jsTrim c) "/" = false := by
      cases h : startsWith (jsTrim c) "/" <;> simp_all
    rw [resolveAssetPath_other c fb hblank (by simpa using habs) (by simpa using hpar)
      hcur1 hcur2]
    have hclean : EndsClean (replaceLeadingDot (jsTrim c)).data := by
      unfold replaceLeadingDot
      split
      · rename_i rest heq
        have := endsClean_jsTrim c
        rw [heq] at this
        exact endsClean_of_append (show EndsClean (['.'] ++ rest) from this)
      · exact endsClean_jsTrim c
    have heq : "./" ++ replaceLeadingDot (jsTrim c)
        = ⟨'.' :: '/' :: (replaceLeadingDot (jsTrim c)).data⟩ := String.ext (by simp)
    rw [heq]
    exact resolveAssetPath_current _ fb hclean

theorem cardPlaceholder_resolves :
    resolveAssetPath (.str ASSET_PATHS.cardPlaceholder) ASSET_PATHS.cardPlaceholder
      = ASSET_PATHS.cardPlaceholder := by decide

theorem spotlightPlaceholder_resolves :
    resolveAssetPath (.str ASSET_PATHS.spotlightPlaceholder) ASSET_PATHS.spotlightPlaceholder
      = ASSET_PATHS.spotlightPlaceholder := by decide

/-! ## Lemmas on the normalizer -/

theorem truthy_str (s : String) : (JsVal.str s).truthy = true ↔ s ≠ "" := by
  simp [JsVal.truthy]

theorem trimOr_of_optString (v : JsVal) (d : String) (h : v.isOptString = true) :
    trimOr v d = some (.str (trimmedOrDefault v d)) := by
  cases v with
  | undefined => simp [trimOr, optTrim, JsVal.or, JsVal.truthy, trimmedOrDefault]
  | null => simp [trimOr, optTrim, JsVal.or, JsVal.truthy, trimmedOrDefault]
  | bool b => simp [JsVal.isOptString] at h
  | num n => simp [JsVal.isOptString] at h
  | str s =>
    by_cases hs : jsTrim s = ""
    · simp [trimOr, optTrim, JsVal.or, JsVal.truthy, trimmedOrDefault, hs]
    · simp [trimOr, optTrim, JsVal.or, JsVal.truthy, trimmedOrDefault, hs]

theorem or_of_optString (v : JsVal) (p : Nat) (h : v.isOptString = true) :
    v.or (.str ("project_" ++ toString (p + 1))) = idOrSynthesized v p := by
  cases v with
  | undefined => simp [JsVal.or, JsVal.truthy, idOrSynthesized]
  | null => simp [JsVal.or, JsVal.truthy, idOrSynthesized]
  | bool b => simp [JsVal.isOptString] at h
  | num n => simp [JsVal.isOptString] at h
  | str s =>
    by_cases hs : s = ""
    · simp [JsVal.or, JsVal.truthy, idOrSynthesized, hs]
    · simp [JsVal.or, JsVal.truthy, idOrSynthesized, hs]

theorem field_isOptString (r : RawProject) (h : r.wellTyped = true) :
    (r.field (·.project_id)).isOptString = true ∧
    (r.field (·.project_name)).isOptString = true ∧
    (r.field (·.short_description)).isOptString = true ∧
    (r.field (·.long_description)).isOptString = true ∧
    (r.field (·.url)).isOptString = true := by
  cases r with
  | none => simp [RawProject.field, JsVal.isOptString]
  | some p =>
    simp only [RawProject.wellTyped, Project.wellTyped, Bool.and_eq_true] at h
    simp [RawProject.field, h]

theorem trimOr_idem (v t : JsVal) (d : String) (hd : jsTrim d = d)
    (h : trimOr v d = some t) : trimOr t d = some t := by
  have key : ∀ s : String, jsTrim s = s →
      trimOr (.str s) d = some (if s = "" then .str d else .str s) := by
    intro s hs
    by_cases h0 : s = ""
    · subst h0
      simp [trimOr, optTrim, JsVal.or, JsVal.truthy, hs]
    · simp [trimOr, optTrim, JsVal.or, JsVal.truthy, hs, h0]
  have hdd : trimOr (.str d) d = some (.str d) := by
    rw [key d hd]
    split <;> rfl
  cases v with
  | undefined =>
    simp [trimOr, optTrim, JsVal.or, JsVal.truthy] at h
    subst h
    exact hdd
  | null =>
    simp [trimOr, optTrim, JsVal.or, JsVal.truthy] at h
    subst h
    exact hdd
  | bool b => simp [trimOr, optTrim] at h
  | num n => simp [trimOr, optTrim] at h
  | str s =>
    by_cases hs : jsTrim s = ""
    · simp [trimOr, optTrim, JsVal.or, JsVal.truthy, hs] at h
      subst h
      exact hdd
    · simp [trimOr, optTrim, JsVal.or, JsVal.truthy, hs] at h
      subst h
      rw [key _ (jsTrim_idem s)]
      simp [hs]

theorem or_fallback_truthy (v : JsVal) (p : Nat) :
    (v.or (.str ("project_" ++ toString (p + 1)))).truthy = true := by
  unfold JsVal.or
  split
  · assumption
  · simp [JsVal.truthy, String.ext_iff]

theorem normalizeProject_eq_some (r : RawProject) (p : Nat) (n : Project)
    (h : normalizeProject r p = some n) :
    n.project_id = (r.field (·.project_id)).or (.str ("project_" ++ toString (p + 1))) ∧
    trimOr (r.field (·.project_name)) "Untitled Project" = some n.project_name ∧
    trimOr (r.field (·.short_description)) "Details coming soon." = some n.short_description ∧
    trimOr (r.field (·.long_description)) "Check back soon for a full project description."
      = some n.long_description ∧
    n.card_image = .str (resolveAssetPath (r.field (·.card_image)) ASSET_PATHS.cardPlaceholder) ∧
    n.spotlight_image =
      .str (resolveAssetPath (r.field (·.spotlight_image)) ASSET_PATHS.spotlightPlaceholder) ∧
    trimOr (r.field (·.url)) "" = some n.url := by
  unfold normalizeProject at h
  simp only [Option.bind_eq_some] at h
  obtain ⟨a, ha, b, hb, c, hc, d, hd, hn⟩ := h
  simp only [Option.some.injEq] at hn
  subst hn
  exact ⟨rfl, ha, hb, hc, rfl, rfl, hd⟩

theorem normalizeProject_of_wellTyped (r : RawProject) (p : Nat) (h : r.wellTyped = true) :
    normalizeProject r p = some
      { project_id := idOrSynthesized (r.field (·.project_id)) p
        project_name := .str (trimmedOrDefault (r.field (·.project_name)) "Untitled Project")
        short_description :=
          .str (trimmedOrDefault (r.field (·.short_description)) "Details coming soon.")
        long_description :=
          .str (trimmedOrDefault (r.field (·.long_description))
            "Check back soon for a full project description.")
        card_image :=
          .str (resolveAssetPath (r.field (·.card_image)) ASSET_PATHS.cardPlaceholder)
        spotlight_image :=
          .str (resolveAssetPath (r.field (·.spotlight_image))
            ASSET_PATHS.spotlightPlaceholder)
        url := .str (trimmedOrDefault (r.field (·.url)) "") } := by
  obtain ⟨h1, h2, h3, h4, h5⟩ := field_isOptString r h
  unfold normalizeProject
  dsimp only
  rw [trimOr_of_optString _ _ h2, trimOr_of_optString _ _ h3, trimOr_of_optString _ _ h4,
    trimOr_of_optString _ _ h5, or_of_optString _ _ h1]
  rfl

theorem normalizeProject_idem (r : RawProject) (p q : Nat) (n : Project)
    (h : normalizeProject r p = some n) : normalizeProject (some n) q = some n := by
  obtain ⟨hid, hname, hshort, hlong, hcard, hspot, hurl⟩ := normalizeProject_eq_some r p n h
  have h1 := trimOr_idem _ _ _ (by decide) hname
  have h2 := trimOr_idem _ _ _ (by decide) hshort
  have h3 := trimOr_idem _ _ _ (by decide) hlong
  have h4 := trimOr_idem _ _ _ (by decide) hurl
  have hidt : n.project_id.truthy = true := by
    rw [hid]
    exact or_fallback_truthy _ _
  have h5 : resolveAssetPath n.card_image ASSET_PATHS.cardPlaceholder
      = resolveAssetPath (r.field (·.card_image)) ASSET_PATHS.cardPlaceholder := by
    rw [hcard]
    exact resolveAssetPath_idem _ _ cardPlaceholder_resolves
  have h6 : resolveAssetPath n.spotlight_image ASSET_PATHS.spotlightPlaceholder
      = resolveAssetPath (r.field (·.spotlight_image)) ASSET_PATHS.spotlightPlaceholder := by
    rw [hspot]
    exact resolveAssetPath_idem _ _ spotlightPlaceholder_resolves
  unfold normalizeProject
  dsimp only [RawProject.field]
  rw [h1, h2, h3, h4, h5, h6]
  simp only [Option.some_bind, JsVal.or, hidt, if_true]
  rw [← hcard, ← hspot]

/-! ## Lemmas on the validator -/

theorem matchPieces_nil (cs : List Char) : matchPieces [] cs = true ↔ cs = [] := by
  cases cs <;> simp [matchPieces]

theorem matchPieces_one (cls : Char → Bool) (ps : List Piece) (cs : List Char) :
    matchPieces (.one cls :: ps) cs = true ↔
      ∃ c rest, cs = c :: rest ∧ cls c = true ∧ matchPieces ps rest = true := by
  cases cs with
  | nil => simp [matchPieces]
  | cons c rest =>
    simp only [matchPieces, Bool.and_eq_true, List.cons.injEq]
    constructor
    · rintro ⟨h1, h2⟩
      exact ⟨c, rest, ⟨rfl, rfl⟩, h1, h2⟩
    · rintro ⟨c1, rest1, ⟨rfl, rfl⟩, h1, h2⟩
      exact ⟨h1, h2⟩

theorem matchPieces_plus (cls : Char → Bool) (ps : List Piece) (cs : List Char) :
    matchPieces (.plus cls :: ps) cs = true ↔
      ∃ a rest, a ≠ [] ∧ (∀ x ∈ a, cls x = true) ∧ cs = a ++ rest ∧
        matchPieces ps rest = true := by
  induction cs with
  | nil =>
    simp only [matchPieces, Bool.false_eq_true, false_iff]
    rintro ⟨a, rest, hne, _, heq, _⟩
    cases a with
    | nil => exact hne rfl
    | cons x xs => simp at heq
  | cons c cs ih =>
    simp only [matchPieces, Bool.and_eq_true, Bool.or_eq_true]
    constructor
    · rintro ⟨hc, h | h⟩
      · obtain ⟨a, rest, _, ha, rfl, hm⟩ := ih.mp h
        refine ⟨c :: a, rest, by simp, ?_, by simp, hm⟩
        intro x hx
        rcases List.mem_cons.mp hx with rfl | hx
        · exact hc
        · exact ha x hx
      · exact ⟨[c], cs, by simp, by simpa using hc, by simp, h⟩
    · rintro ⟨a, rest, hne, ha, heq, hm⟩
      cases a with
      | nil => exact absurd rfl hne
      | cons x xs =>
        simp only [List.cons_append, List.cons.injEq] at heq
        obtain ⟨rfl, rfl⟩ := heq
        refine ⟨ha _ (List.mem_cons_self _ _), ?_⟩
        cases xs with
        | nil => right; simpa using hm
        | cons y ys =>
          left
          exact ih.mpr ⟨y :: ys, rest, by simp, fun z hz => ha z (List.mem_cons_of_mem _ hz),
            rfl, hm⟩

theorem EMAIL_VALIDATION_PATTERN_test_iff (s : String) :
    EMAIL_VALIDATION_PATTERN_test s = true ↔ EmailShape s := by
  unfold EMAIL_VALIDATION_PATTERN_test EmailShape
  constructor
  · intro h
    obtain ⟨loc, r1, h1, hloc, e1, h⟩ := (matchPieces_plus _ _ _).mp h
    obtain ⟨c1, r2, e2, hc1, h⟩ := (matchPieces_one _ _ _).mp h
    obtain ⟨dom, r3, h3, hdom, e3, h⟩ := (matchPieces_plus _ _ _).mp h
    obtain ⟨c2, r4, e4, hc2, h⟩ := (matchPieces_one _ _ _).mp h
    obtain ⟨tld, r5, h5, htld, e5, h⟩ := (matchPieces_plus _ _ _).mp h
    have e6 := (matchPieces_nil _).mp h
    simp only [beq_iff_eq] at hc1 hc2
    subst e6 e5 hc2 e4 e3 hc1 e2
    exact ⟨loc, dom, tld, h1, h3, h5, hloc, hdom, htld, by simpa using e1⟩
  · rintro ⟨loc, dom, tld, h1, h3, h5, hloc, hdom, htld, e⟩
    rw [e]
    refine (matchPieces_plus _ _ _).mpr ⟨loc, _, h1, hloc, rfl, ?_⟩
    refine (matchPieces_one _ _ _).mpr ⟨_, _, rfl, by simp, ?_⟩
    refine (matchPieces_plus _ _ _).mpr ⟨dom, _, h3, hdom, rfl, ?_⟩
    refine (matchPieces_one _ _ _).mpr ⟨_, _, rfl, by simp, ?_⟩
    refine (matchPieces_plus _ _ _).mpr ⟨tld, [], h5, htld, by simp, ?_⟩
    exact (matchPieces_nil _).mpr rfl

theorem ILLEGAL_CHAR_PATTERN_test_iff (s : String) :
    ILLEGAL_CHAR_PATTERN_test s = true ↔ ∃ c ∈ s.data, isLegalChar c = false := by
  simp [ILLEGAL_CHAR_PATTERN_test]

theorem validateFormFields_long_xs (n : Nat) (hn : 300 < n) :
    (validateFormFields "a@b.co" ⟨List.replicate n 'x'⟩).message
      = "Please keep your message within 300 characters." := by
  have hx : isWhiteSpace 'x' = false := by decide
  have hl : isLegalChar 'x' = true := by decide
  obtain ⟨m, rfl⟩ : ∃ m, n = m + 1 := ⟨n - 1, by omega⟩
  have htrim : trimChars (List.replicate (m + 1) 'x') = List.replicate (m + 1) 'x' := by
    apply trimChars_of_clean
    · intro c hc
      rw [List.replicate_succ] at hc
      simp only [List.head?_cons, Option.some.injEq] at hc
      subst hc
      exact hx
    · intro c hc
      rw [List.getLast?_eq_some_iff] at hc
      obtain ⟨ys, hys⟩ := hc
      have hmem : c ∈ List.replicate (m + 1) 'x' := by
        rw [hys]
        simp
      rw [List.eq_of_mem_replicate hmem]
      exact hx
  have h1 : ¬ (jsTrim ⟨List.replicate (m + 1) 'x'⟩ = "") := by
    rw [String.ext_iff]
    simp only [jsTrim, htrim]
    rw [List.replicate_succ]
    simp
  have h2 : ILLEGAL_CHAR_PATTERN_test ⟨List.replicate (m + 1) 'x'⟩ = false := by
    cases h : ILLEGAL_CHAR_PATTERN_test ⟨List.replicate (m + 1) 'x'⟩
    · rfl
    · obtain ⟨c, hc, hc'⟩ := (ILLEGAL_CHAR_PATTERN_test_iff _).mp h
      rw [List.eq_of_mem_replicate hc, hl] at hc'
      cases hc'
  have h3 : jsLength ⟨List.replicate (m + 1) 'x'⟩ = m + 1 := by
    have hc : (if 'x'.toNat < 0x10000 then 1 else 2) = 1 := by decide
    simp only [jsLength, List.map_replicate, hc, List.sum_replicate]
    simp
  have h4 : toString MAX_MESSAGE_LENGTH = "300" := by decide
  have h5 : "Please keep your message within " ++ "300" ++ " characters."
      = "Please keep your message within 300 characters." := by decide
  have h6 : jsLength ⟨List.replicate (m + 1) 'x'⟩ > MAX_MESSAGE_LENGTH := by
    rw [h3]
    exact hn
  simp only [validateFormFields, h1, h2, h4, h6, if_false, if_true, Bool.false_eq_true]
  exact h5

/-! ## Lemmas on the catalog merge -/

theorem foldl_pushCustom (bs : List Project) (raw : List RawProject) (ids : List JsVal) :
    bs.foldl pushCustom (raw, ids)
      = (raw ++ (keptFrom ids bs).map some, ids ++ (keptFrom ids bs).map (·.project_id)) := by
  induction bs generalizing raw ids with
  | nil => simp [keptFrom]
  | cons b bs ih =>
    by_cases hb : b.project_id ∈ ids
    · simp [List.foldl_cons, pushCustom, keptFrom, hb, ih]
    · simp [List.foldl_cons, pushCustom, keptFrom, hb, ih]

theorem keptFrom_not_mem (bs : List Project) (ids : List JsVal) (b : Project)
    (hb : b ∈ keptFrom ids bs) : b.project_id ∉ ids := by
  induction bs generalizing ids with
  | nil => simp [keptFrom] at hb
  | cons x xs ih =>
    by_cases hx : x.project_id ∈ ids
    · simp only [keptFrom, hx, if_true] at hb
      exact ih ids hb
    · simp only [keptFrom, hx, if_false, List.mem_cons] at hb
      rcases hb with rfl | hb
      · exact hx
      · intro hmem
        exact ih _ hb (List.mem_append_left _ hmem)

theorem mem_existingIdsOf (fetched : List RawProject) (v : JsVal) :
    v ∈ existingIdsOf fetched ↔ isFetchedId fetched v = true := by
  simp only [existingIdsOf, isFetchedId, List.mem_filter, List.mem_map, Bool.and_eq_true,
    List.any_eq_true, beq_iff_eq]
  constructor
  · rintro ⟨⟨r, hr, rfl⟩, h1, h2⟩
    exact ⟨⟨h1, h2⟩, r, hr, rfl⟩
  · rintro ⟨⟨h1, h2⟩, r, hr, rfl⟩
    exact ⟨⟨r, hr, rfl⟩, h1, h2⟩

theorem keptFrom_eq_filter (fetched : List RawProject) (all : List Project) :
    ∀ (bs earlier : List Project) (ids : List JsVal), all = earlier ++ bs →
      (∀ v, v ∈ ids ↔ (isFetchedId fetched v = true ∨ v ∈ earlier.map (·.project_id))) →
      keptFrom ids bs
        = ((List.enumFrom earlier.length bs).filter (isAppended fetched all)).map (·.2) := by
  intro bs
  induction bs with
  | nil => intro earlier ids _ _; simp [keptFrom]
  | cons b bs ih =>
    intro earlier ids hall hids
    have htake : all.take earlier.length = earlier := by
      rw [hall]; simp
    have hall' : all = (earlier ++ [b]) ++ bs := by
      rw [hall]; simp
    have hlen : (earlier ++ [b]).length = earlier.length + 1 := by simp
    have hP : isAppended fetched all (earlier.length, b) = true ↔ b.project_id ∉ ids := by
      simp only [isAppended, htake, Bool.and_eq_true, Bool.not_eq_true', hids, not_or,
        List.mem_map, Bool.not_eq_true, List.any_eq_false, beq_iff_eq]
      constructor
      · rintro ⟨h1, h2⟩
        refine ⟨by simpa using h1, ?_⟩
        rintro ⟨x, hx, hxe⟩
        exact h2 x hx hxe
      · rintro ⟨h1, h2⟩
        refine ⟨by simpa using h1, ?_⟩
        intro x hx hxe
        exact h2 ⟨x, hx, hxe⟩
    rw [List.enumFrom_cons, List.filter_cons]
    by_cases hb : b.project_id ∈ ids
    · have hP' : ¬ (isAppended fetched all (earlier.length, b) = true) := by
        rw [hP]; exact fun h => h hb
      simp only [keptFrom, hb, if_true, hP', if_false]
      rw [← hlen]
      apply ih (earlier ++ [b]) ids hall'
      intro v
      rw [hids v]
      simp only [List.map_append, List.mem_append, List.map_cons, List.map_nil,
        List.mem_singleton]
      constructor
      · rintro (h | h)
        · exact Or.inl h
        · exact Or.inr (Or.inl h)
      · rintro (h | h | h)
        · exact Or.inl h
        · exact Or.inr h
        · subst h
          exact (hids _).mp hb
    · have hP' : isAppended fetched all (earlier.length, b) = true := hP.mpr hb
      simp only [keptFrom, hb, if_false, hP', if_true, List.map_cons]
      congr 1
      rw [← hlen]
      apply ih (earlier ++ [b]) (ids ++ [b.project_id]) hall'
      intro v
      simp only [List.mem_append, List.mem_singleton, hids v, List.map_append, List.map_cons,
        List.map_nil]
      constructor
      · rintro ((h | h) | h)
        · exact Or.inl h
        · exact Or.inr (Or.inl h)
        · exact Or.inr (Or.inr h)
      · rintro (h | h | h)
        · exact Or.inl (Or.inl h)
        · exact Or.inl (Or.inr h)
        · exact Or.inr h

/-- The last-resort push never fires: the merged list is the result of the `forEach`. -/
theorem mergeProjects_eq_forEach (fetched : List RawProject) (builtins : List Project) :
    mergeProjects fetched builtins
      = fetched ++ (keptFrom (existingIdsOf fetched) builtins).map some := by
  unfold mergeProjects
  simp only [foldl_pushCustom]
  cases builtins with
  | nil => rfl
  | cons first rest =>
    have hne : (fetched ++ (keptFrom (existingIdsOf fetched) (first :: rest)).map some).length
        ≠ 0 := by
      cases fetched with
      | nil => simp [existingIdsOf, keptFrom]
      | cons r rs => simp
    simp only [hne, if_false]

theorem mergeProjects_eq_spec (fetched : List RawProject) (builtins : List Project) :
    mergeProjects fetched builtins = mergedBySpec fetched builtins := by
  rw [mergeProjects_eq_forEach, mergedBySpec]
  congr 1
  have h := keptFrom_eq_filter fetched builtins builtins [] (existingIdsOf fetched) rfl
    (by intro v; simp [mem_existingIdsOf])
  rw [h]
  simp [List.enum, List.map_map]

theorem mergeProjects_ne_nil (fetched : List RawProject) (builtins : List Project)
    (h : builtins ≠ []) : mergeProjects fetched builtins ≠ [] := by
  rw [mergeProjects_eq_forEach]
  cases fetched with
  | cons r rs => simp
  | nil =>
    cases builtins with
    | nil => exact absurd rfl h
    | cons b bs => simp [existingIdsOf, keptFrom]

theorem withId_mergeProjects (fetched : List RawProject) (builtins : List Project)
    (v : JsVal) (hv : isFetchedId fetched v = true) :
    withId v (mergeProjects fetched builtins) = withId v fetched := by
  rw [mergeProjects_eq_forEach]
  unfold withId
  rw [List.filter_append]
  have : List.filter (fun r : RawProject => r.field (·.project_id) == v)
      ((keptFrom (existingIdsOf fetched) builtins).map some) = [] := by
    rw [List.filter_eq_nil_iff]
    intro r hr
    obtain ⟨b, hb, rfl⟩ := List.mem_map.mp hr
    have := keptFrom_not_mem _ _ b hb
    simp only [RawProject.field, beq_iff_eq]
    rintro rfl
    exact this ((mem_existingIdsOf fetched _).mpr hv)
  rw [this]
  simp

/-! ## Lemmas on the gallery state -/

theorem modifyAt_append_length {α : Type} (f : α → α) (l : List α) (c : α) :
    modifyAt f l.length (l ++ [c]) = l ++ [f c] := by
  induction l with
  | nil => rfl
  | cons x xs ih => simp [modifyAt, ih]

theorem length_modifyAt {α : Type} (f : α → α) (n : Nat) (l : List α) :
    (modifyAt f n l).length = l.length := by
  induction l generalizing n with
  | nil => simp [modifyAt]
  | cons x xs ih =>
    cases n with
    | zero => rfl
    | succ n => simp [modifyAt, ih]

theorem getElem?_modifyAt {α : Type} (f : α → α) (n m : Nat) (l : List α) :
    (modifyAt f n l)[m]? = if n = m then (l[m]?).map f else l[m]? := by
  induction l generalizing n m with
  | nil => simp [modifyAt]
  | cons x xs ih =>
    cases n with
    | zero =>
      cases m with
      | zero => simp [modifyAt]
      | succ m => simp [modifyAt]
    | succ n =>
      cases m with
      | zero => simp [modifyAt]
      | succ m => simp [modifyAt, ih]

theorem mem_modifyAt {α : Type} (f : α → α) (n : Nat) (l : List α) (c : α)
    (h : c ∈ modifyAt f n l) : ∃ d ∈ l, c = d ∨ c = f d := by
  induction l generalizing n with
  | nil => simp [modifyAt] at h
  | cons x xs ih =>
    cases n with
    | zero =>
      simp only [modifyAt, List.mem_cons] at h
      rcases h with rfl | h
      · exact ⟨x, List.mem_cons_self _ _, Or.inr rfl⟩
      · exact ⟨c, List.mem_cons_of_mem _ h, Or.inl rfl⟩
    | succ n =>
      simp only [modifyAt, List.mem_cons] at h
      rcases h with rfl | h
      · exact ⟨c, List.mem_cons_self _ _, Or.inl rfl⟩
      · obtain ⟨d, hd, hcd⟩ := ih n h
        exact ⟨d, List.mem_cons_of_mem _ hd, hcd⟩

theorem mapGet_mapSet (m : List (JsVal × Project)) (k k' : JsVal) (v : Project) :
    mapGet (mapSet m k v) k' = if k = k' then some v else mapGet m k' := by
  induction m with
  | nil =>
    by_cases h : k = k'
    · simp [mapSet, mapGet, h]
    · simp [mapSet, mapGet, h]
  | cons e m ih =>
    obtain ⟨a, b⟩ := e
    unfold mapGet at ih ⊢
    by_cases he : a = k
    · subst he
      by_cases h : a = k'
      · subst h
        simp [mapSet]
      · simp [mapSet, h, List.find?_cons]
    · by_cases h' : a = k'
      · subst h'
        have h : ¬ (k = a) := fun hk => he hk.symm
        simp [mapSet, he, h, List.find?_cons]
      · simp [mapSet, he, h', List.find?_cons, ih]

theorem mapSet_ne_nil (m : List (JsVal × Project)) (k : JsVal) (v : Project) :
    mapSet m k v ≠ [] := by
  cases m with
  | nil => simp [mapSet]
  | cons e m =>
    simp only [mapSet]
    split <;> simp

theorem storeAll_ne_nil (nps : List Project) (m : List (JsVal × Project)) (h : m ≠ []) :
    storeAll m nps ≠ [] := by
  induction nps generalizing m with
  | nil => exact h
  | cons n nps ih =>
    simp only [storeAll, List.foldl_cons]
    exact ih _ (mapSet_ne_nil _ _ _)

theorem storeAll_cons (m : List (JsVal × Project)) (n : Project) (nps : List Project) :
    storeAll m (n :: nps) = storeAll (mapSet m n.project_id n) nps := rfl

/-- The card loop from a position other than 0: every record is normalized, stored and
shown as an inactive card. -/
theorem cardLoop_tail (l : List RawProject) (index : Nat) (st : GalleryState)
    (h : 0 < index) :
    cardLoop l index st = (normalizeAll l index).map (fun nps =>
      { st with
        projectStore := storeAll st.projectStore nps
        cards := st.cards ++ nps.map inactiveCard }) := by
  induction l generalizing index st with
  | nil => simp [cardLoop, normalizeAll, storeAll]
  | cons r rs ih =>
    cases hn : normalizeProject r index with
    | none => simp [cardLoop, normalizeAll, hn]
    | some n =>
      have hi : index ≠ 0 := Nat.pos_iff_ne_zero.mp h
      simp only [cardLoop, normalizeAll, hn, hi, if_false]
      rw [ih (index + 1) _ (Nat.succ_pos _)]
      cases normalizeAll rs (index + 1) with
      | none => rfl
      | some nps =>
        simp only [Option.map_some', modifyAt_append_length, storeAll_cons, List.map_cons,
          inactiveCard, List.append_assoc, List.singleton_append]

/-- The card loop from the initial module state. -/
theorem cardLoop_initial (r : RawProject) (rs : List RawProject)
    (els : Option SpotlightElements) :
    cardLoop (r :: rs) 0 { spotlightElements := els }
      = (normalizeAll (r :: rs) 0).bind (fun nps =>
          match nps with
          | n0 :: rest => some (renderedState els n0 rest)
          | [] => none) := by
  cases hn : normalizeProject r 0 with
  | none => simp [cardLoop, normalizeAll, hn]
  | some n0 =>
    simp only [cardLoop, normalizeAll, hn, if_true]
    rw [cardLoop_tail rs 1 _ (Nat.succ_pos _)]
    cases normalizeAll rs (0 + 1) with
    | none => rfl
    | some nps => rfl

theorem normalizeAll_of_wellTyped (l : List RawProject) (index : Nat)
    (h : ∀ r ∈ l, r.wellTyped = true) :
    ∃ nps, normalizeAll l index = some nps := by
  induction l generalizing index with
  | nil => exact ⟨[], rfl⟩
  | cons r rs ih =>
    obtain ⟨nps, hnps⟩ := ih (index + 1) (fun x hx => h x (List.mem_cons_of_mem _ hx))
    have hr := normalizeProject_of_wellTyped r index (h r (List.mem_cons_self _ _))
    simp only [normalizeAll, hr, hnps, Option.map_some']
    exact ⟨_, rfl⟩

theorem normalizeAll_spec (l : List RawProject) (index : Nat) (nps : List Project)
    (h : normalizeAll l index = some nps) :
    nps.length = l.length ∧ (∀ e ∈ nps, IsNormalized e) ∧
    (∀ j r, l[j]? = some r → ∃ e, nps[j]? = some e ∧ normalizeProject r (index + j) = some e) := by
  induction l generalizing index nps with
  | nil =>
    simp only [normalizeAll, Option.some.injEq] at h
    subst h
    simp
  | cons r rs ih =>
    cases hn : normalizeProject r index with
    | none => simp [normalizeAll, hn] at h
    | some n =>
      cases hr : normalizeAll rs (index + 1) with
      | none => simp [normalizeAll, hn, hr] at h
      | some rest =>
        simp only [normalizeAll, hn, hr, Option.map_some', Option.some.injEq] at h
        subst h
        obtain ⟨h1, h2, h3⟩ := ih (index + 1) rest hr
        refine ⟨by simp [h1], ?_, ?_⟩
        · intro e he
          rcases List.mem_cons.mp he with rfl | he
          · exact ⟨r, index, hn⟩
          · exact h2 e he
        · intro j x hx
          cases j with
          | zero =>
            simp only [List.getElem?_cons_zero, Option.some.injEq] at hx
            subst hx
            exact ⟨n, by simp, by simpa using hn⟩
          | succ j =>
            simp only [List.getElem?_cons_succ] at hx
            obtain ⟨e, he1, he2⟩ := h3 j x hx
            refine ⟨e, by simpa using he1, ?_⟩
            rw [← he2]
            congr 1
            omega

theorem setSpotlight_cards (st : GalleryState) (e : Project) :
    (setSpotlight st e).cards = st.cards := by
  unfold setSpotlight
  split <;> rfl

theorem setSpotlight_active (st : GalleryState) (e : Project) :
    (setSpotlight st e).activeProjectCard = st.activeProjectCard := by
  unfold setSpotlight
  split <;> rfl

theorem setSpotlight_store (st : GalleryState) (e : Project) :
    (setSpotlight st e).projectStore = st.projectStore := by
  unfold setSpotlight
  split <;> rfl

theorem setSpotlight_isSome (st : GalleryState) (e : Project) :
    (setSpotlight st e).spotlightElements.isSome = st.spotlightElements.isSome := by
  unfold setSpotlight
  split
  · rename_i h; rw [h]
  · rename_i els h; rw [h]; rfl

theorem renderedState_cards (els : Option SpotlightElements) (n0 : Project)
    (rest : List Project) :
    (renderedState els n0 rest).cards = activeCard n0 :: rest.map inactiveCard := by
  simp [renderedState, setSpotlight_cards, setActiveProjectCard, modifyAt, activeCard]

theorem renderedState_active (els : Option SpotlightElements) (n0 : Project)
    (rest : List Project) :
    (renderedState els n0 rest).activeProjectCard = some 0 := by
  simp [renderedState, setSpotlight_active, setActiveProjectCard]

theorem renderedState_store (els : Option SpotlightElements) (n0 : Project)
    (rest : List Project) :
    (renderedState els n0 rest).projectStore = storeAll [(n0.project_id, n0)] rest := by
  simp [renderedState, setSpotlight_store, setActiveProjectCard]

/-- What `populateProjectsSection` renders for a non-empty merged list. -/
theorem populate_rendered (page : Page) (fetched : Fetched) (builtins : List Project)
    (st : GalleryState)
    (h : populateProjectsSection page fetched builtins = .rendered st)
    (hne : mergeProjects fetched.rawProjects builtins ≠ []) :
    ∃ n0 rest, normalizeAll (mergeProjects fetched.rawProjects builtins) 0 = some (n0 :: rest) ∧
      st = renderedState (buildSpotlightStructure page.spotlightTitles) n0 rest := by
  unfold populateProjectsSection at h
  split at h
  · cases h
  · cases hm : mergeProjects fetched.rawProjects builtins with
    | nil => exact absurd hm hne
    | cons r rs =>
      simp only [hm] at h
      rw [cardLoop_initial] at h
      cases hn : normalizeAll (r :: rs) 0 with
      | none => simp [hn] at h
      | some nps =>
        cases nps with
        | nil => simp [hn] at h
        | cons n0 rest =>
          simp only [hn, Option.some_bind] at h
          simp only [Populated.rendered.injEq] at h
          exact ⟨n0, rest, rfl, h.symm⟩

/-- The converse: when every merged record normalizes, the gallery is rendered. -/
theorem populate_of_normalizeAll (page : Page) (fetched : Fetched) (builtins : List Project)
    (hp1 : page.projectList = true) (hp2 : page.projectSpotlight = true)
    (n0 : Project) (rest : List Project)
    (hn : normalizeAll (mergeProjects fetched.rawProjects builtins) 0 = some (n0 :: rest)) :
    populateProjectsSection page fetched builtins
      = .rendered (renderedState (buildSpotlightStructure page.spotlightTitles) n0 rest) := by
  unfold populateProjectsSection
  simp only [hp1, hp2, Bool.not_true, Bool.or_self, Bool.false_eq_true, if_false]
  cases hm : mergeProjects fetched.rawProjects builtins with
  | nil => rw [hm] at hn; simp [normalizeAll] at hn
  | cons r rs =>
    rw [hm] at hn
    simp only [cardLoop_initial, hn, Option.some_bind]

theorem oneActive_renderedState (els : Option SpotlightElements) (n0 : Project)
    (rest : List Project) : OneActive (renderedState els n0 rest) := by
  refine ⟨0, renderedState_active els n0 rest, by simp [renderedState_cards], ?_⟩
  intro i c hc
  rw [renderedState_cards] at hc
  cases i with
  | zero =>
    simp only [List.getElem?_cons_zero, Option.some.injEq] at hc
    subst hc
    simp [activeCard]
  | succ j =>
    simp only [List.getElem?_cons_succ, List.getElem?_map, Option.map_eq_some'] at hc
    obtain ⟨n, _, rfl⟩ := hc
    simp [inactiveCard, buildProjectCard]

theorem length_setActiveProjectCard (st : GalleryState) (k : Nat) :
    (setActiveProjectCard st k).cards.length = st.cards.length := by
  unfold setActiveProjectCard
  simp only [length_modifyAt]
  split
  · split
    · exact length_modifyAt _ _ _
    · rfl
  · rfl

theorem oneActive_setActiveProjectCard (st : GalleryState) (k : Nat)
    (h : OneActive st) (hk : k < st.cards.length) : OneActive (setActiveProjectCard st k) := by
  obtain ⟨a, ha, _, hall⟩ := h
  refine ⟨k, rfl, by rw [length_setActiveProjectCard]; exact hk, ?_⟩
  intro i c hc
  simp only [setActiveProjectCard, ha] at hc
  rw [getElem?_modifyAt] at hc
  by_cases hki : k = i
  · subst hki
    simp only [if_true, Option.map_eq_some'] at hc
    obtain ⟨d, _, rfl⟩ := hc
    simp
  · simp only [hki, if_false] at hc
    have hik : ¬ (i = k) := fun h => hki h.symm
    by_cases hak : a = k
    · subst hak
      simp only [ne_eq, not_true_eq_false, if_false] at hc
      obtain ⟨h1, h2⟩ := hall i c hc
      exact ⟨h1, h2⟩
    · simp only [ne_eq, hak, not_false_eq_true, if_true] at hc
      rw [getElem?_modifyAt] at hc
      by_cases hai : a = i
      · subst hai
        simp only [if_true, Option.map_eq_some'] at hc
        obtain ⟨d, _, rfl⟩ := hc
        simp [hak]
      · simp only [hai, if_false] at hc
        obtain ⟨h1, h2⟩ := hall i c hc
        have hia : ¬ (i = a) := fun h => hai h.symm
        simp only [hia, decide_False, ne_eq, not_false_eq_true, decide_True] at h1 h2
        simp [h1, h2, hik]

theorem handleProjectSelection_unknown (st : GalleryState) (projectId : JsVal) (card : Nat)
    (h : mapGet st.projectStore projectId = none) :
    handleProjectSelection st projectId card = st := by
  simp [handleProjectSelection, h]

theorem oneActive_handleProjectSelection (st : GalleryState) (projectId : JsVal) (k : Nat)
    (h : OneActive st) (hk : k < st.cards.length) :
    OneActive (handleProjectSelection st projectId k) ∧
    (handleProjectSelection st projectId k).cards.length = st.cards.length := by
  unfold handleProjectSelection
  cases mapGet st.projectStore projectId with
  | none => exact ⟨h, rfl⟩
  | some e =>
    obtain ⟨a, ha, hlt, hall⟩ := oneActive_setActiveProjectCard st k h hk
    refine ⟨⟨a, ?_, ?_, ?_⟩, ?_⟩
    · rw [setSpotlight_active]; exact ha
    · rw [setSpotlight_cards]; exact hlt
    · rw [setSpotlight_cards]; exact hall
    · rw [setSpotlight_cards, length_setActiveProjectCard]

theorem oneActive_foldl (reqs : List (JsVal × Nat)) (st : GalleryState)
    (h : OneActive st) (hreq : ∀ q ∈ reqs, q.2 < st.cards.length) :
    OneActive (reqs.foldl (fun s q => handleProjectSelection s q.1 q.2) st) ∧
    (reqs.foldl (fun s q => handleProjectSelection s q.1 q.2) st).cards.length
      = st.cards.length := by
  induction reqs generalizing st with
  | nil => exact ⟨h, rfl⟩
  | cons q qs ih =>
    obtain ⟨h1, h2⟩ := oneActive_handleProjectSelection st q.1 q.2 h
      (hreq q (List.mem_cons_self _ _))
    obtain ⟨h3, h4⟩ := ih _ h1 (fun x hx => by
      rw [h2]; exact hreq x (List.mem_cons_of_mem _ hx))
    exact ⟨h3, h4.trans h2⟩

theorem keptFrom_subset (bs : List Project) (ids : List JsVal) (b : Project)
    (hb : b ∈ keptFrom ids bs) : b ∈ bs := by
  induction bs generalizing ids with
  | nil => simp [keptFrom] at hb
  | cons x xs ih =>
    by_cases hx : x.project_id ∈ ids
    · simp only [keptFrom, hx, if_true] at hb
      exact List.mem_cons_of_mem _ (ih ids hb)
    · simp only [keptFrom, hx, if_false, List.mem_cons] at hb
      rcases hb with rfl | hb
      · exact List.mem_cons_self _ _
      · exact List.mem_cons_of_mem _ (ih _ hb)

theorem mergeProjects_wellTyped (fetched : List RawProject) (builtins : List Project)
    (hf : ∀ r ∈ fetched, r.wellTyped = true) (hb : ∀ b ∈ builtins, b.wellTyped = true) :
    ∀ r ∈ mergeProjects fetched builtins, r.wellTyped = true := by
  intro r hr
  rw [mergeProjects_eq_forEach] at hr
  rcases List.mem_append.mp hr with h | h
  · exact hf r h
  · obtain ⟨b, hbk, rfl⟩ := List.mem_map.mp h
    exact hb b (keptFrom_subset _ _ b hbk)

theorem renderedState_length (els : Option SpotlightElements) (n0 : Project)
    (rest : List Project) : (renderedState els n0 rest).cards.length = rest.length + 1 := by
  simp [renderedState_cards]

theorem trimOr_isStr (v t : JsVal) (d : String) (h : trimOr v d = some t) :
    ∃ u, t = .str u := by
  cases v with
  | undefined =>
    simp [trimOr, optTrim, JsVal.or, JsVal.truthy] at h
    exact ⟨d, h.symm⟩
  | null =>
    simp [trimOr, optTrim, JsVal.or, JsVal.truthy] at h
    exact ⟨d, h.symm⟩
  | bool b => simp [trimOr, optTrim] at h
  | num n => simp [trimOr, optTrim] at h
  | str s =>
    by_cases hs : jsTrim s = ""
    · simp [trimOr, optTrim, JsVal.or, JsVal.truthy, hs] at h
      exact ⟨d, h.symm⟩
    · simp [trimOr, optTrim, JsVal.or, JsVal.truthy, hs] at h
      exact ⟨jsTrim s, h.symm⟩

/-- After `setSpotlight(entry)` with a normalized entry the spotlight shows the entry. -/
theorem spotlightShows_setSpotlight (st : GalleryState) (e : Project)
    (hsome : st.spotlightElements.isSome = true) (hnorm : IsNormalized e) :
    SpotlightShows (setSpotlight st e) e := by
  obtain ⟨r, index, hr⟩ := hnorm
  obtain ⟨_, _, _, _, _, hspot, hurl⟩ := normalizeProject_eq_some r index e hr
  obtain ⟨u, hu⟩ := trimOr_isStr _ _ _ hurl
  obtain ⟨els, hels⟩ := Option.isSome_iff_exists.mp hsome
  have hpath : resolveAssetPath e.spotlight_image ASSET_PATHS.spotlightPlaceholder
      = resolveAssetPath (r.field (·.spotlight_image)) ASSET_PATHS.spotlightPlaceholder := by
    rw [hspot]
    exact resolveAssetPath_idem _ _ spotlightPlaceholder_resolves
  have hbg : (setSpotlight st e).spotlightBackground
      = "url('" ++ resolveAssetPath (r.field (·.spotlight_image))
          ASSET_PATHS.spotlightPlaceholder ++ "')" := by
    simp only [setSpotlight, hels, hpath]
  by_cases hu0 : u = ""
  · have ht : e.url.truthy = false := by rw [hu, hu0]; rfl
    have hst : (setSpotlight st e).spotlightElements = some
        { title := e.project_name, description := e.long_description,
          link := { els.link with
            textContent := "Project link coming soon...", href := none, ariaDisabled := true,
            inactive := true, tabIndex := -1, pointerEvents := "none" } } := by
      simp [setSpotlight, hels, ht]
    refine ⟨_, hst, rfl, rfl, ⟨_, hspot, hbg⟩, u, hu, ?_, ?_⟩
    · intro h; exact absurd hu0 h
    · intro _
      exact ⟨rfl, rfl, rfl, rfl⟩
  · have ht : e.url.truthy = true := by rw [hu]; exact (truthy_str u).mpr hu0
    have hst : (setSpotlight st e).spotlightElements = some
        { title := e.project_name, description := e.long_description,
          link := { els.link with
            textContent := "Click here to see more...", href := some e.url,
            target := some "_blank", rel := some "noopener noreferrer", inactive := false,
            ariaDisabled := false, tabIndex := 0, pointerEvents := "auto" } } := by
      simp [setSpotlight, hels, ht]
    refine ⟨_, hst, rfl, rfl, ⟨_, hspot, hbg⟩, u, hu, ?_, ?_⟩
    · intro _
      exact ⟨by rw [hu], rfl, rfl, rfl, rfl, rfl⟩
    · intro h; exact absurd h hu0

theorem storeAll_get_of_not_mem (nps : List Project) (m : List (JsVal × Project))
    (k : JsVal) (h : ∀ n ∈ nps, n.project_id ≠ k) :
    mapGet (storeAll m nps) k = mapGet m k := by
  induction nps generalizing m with
  | nil => rfl
  | cons n nps ih =>
    rw [storeAll_cons, ih _ (fun x hx => h x (List.mem_cons_of_mem _ hx)), mapGet_mapSet]
    simp [h n (List.mem_cons_self _ _)]

theorem storeAll_get_isSome (nps : List Project) (m : List (JsVal × Project)) (k : JsVal)
    (h : (∃ e, mapGet m k = some e) ∨ ∃ n ∈ nps, n.project_id = k) :
    ∃ e, mapGet (storeAll m nps) k = some e := by
  induction nps generalizing m with
  | nil =>
    rcases h with h | ⟨n, hn, _⟩
    · exact h
    · simp at hn
  | cons n nps ih =>
    rw [storeAll_cons]
    apply ih
    by_cases hk : n.project_id = k
    · left
      exact ⟨n, by rw [mapGet_mapSet]; simp [hk]⟩
    · rcases h with ⟨e, he⟩ | ⟨x, hx, hxk⟩
      · left
        exact ⟨e, by rw [mapGet_mapSet]; simp [hk, he]⟩
      · rcases List.mem_cons.mp hx with rfl | hx
        · exact absurd hxk hk
        · right
          exact ⟨x, hx, hxk⟩

theorem storeAll_values (P : Project → Prop) (nps : List Project)
    (m : List (JsVal × Project))
    (hm : ∀ k e, mapGet m k = some e → P e) (hn : ∀ n ∈ nps, P n) :
    ∀ k e, mapGet (storeAll m nps) k = some e → P e := by
  induction nps generalizing m with
  | nil => exact hm
  | cons n nps ih =>
    rw [storeAll_cons]
    apply ih _ _ (fun x hx => hn x (List.mem_cons_of_mem _ hx))
    intro k e he
    rw [mapGet_mapSet] at he
    by_cases hk : n.project_id = k
    · simp only [hk, if_true, Option.some.injEq] at he
      subst he
      exact hn _ (List.mem_cons_self _ _)
    · simp only [hk, if_false] at he
      exact hm k e he

theorem renderedState_isSome (els : Option SpotlightElements) (n0 : Project)
    (rest : List Project) :
    (renderedState els n0 rest).spotlightElements.isSome = els.isSome := by
  simp only [renderedState]
  rw [setSpotlight_isSome]
  rfl

theorem galleryInv_renderedState (els : SpotlightElements) (n0 : Project)
    (rest : List Project) (hn : ∀ n ∈ n0 :: rest, IsNormalized n) :
    GalleryInv (renderedState (some els) n0 rest) := by
  refine ⟨by rw [renderedState_isSome]; rfl, ?_, ?_⟩
  · intro c hc
    rw [renderedState_store]
    rw [renderedState_cards] at hc
    apply storeAll_get_isSome
    rcases List.mem_cons.mp hc with rfl | hc
    · left
      exact ⟨n0, by simp [mapGet, buildProjectCard, activeCard]⟩
    · right
      obtain ⟨n, hn', rfl⟩ := List.mem_map.mp hc
      exact ⟨n, hn', rfl⟩
  · rw [renderedState_store]
    apply storeAll_values IsNormalized rest _ _ (fun n h => hn n (List.mem_cons_of_mem _ h))
    intro k e he
    simp only [mapGet, List.find?_cons, List.find?_nil] at he
    split at he
    · simp only [Option.map_some', Option.some.injEq] at he
      subst he
      exact hn _ (List.mem_cons_self _ _)
    · simp at he

theorem spotlightShows_renderedState (els : SpotlightElements) (n0 : Project)
    (rest : List Project) (hn : IsNormalized n0) :
    SpotlightShows (renderedState (some els) n0 rest) n0 := by
  have h := spotlightShows_setSpotlight
    (setActiveProjectCard
      { projectStore := [(n0.project_id, n0)], cards := [buildProjectCard n0],
        spotlightElements := some els } 0) n0 rfl hn
  obtain ⟨e, he, h1, h2, h3, h4⟩ := h
  exact ⟨e, he, h1, h2, h3, h4⟩

theorem setActiveProjectCard_store (st : GalleryState) (k : Nat) :
    (setActiveProjectCard st k).projectStore = st.projectStore := rfl

theorem setActiveProjectCard_elements (st : GalleryState) (k : Nat) :
    (setActiveProjectCard st k).spotlightElements = st.spotlightElements := rfl

theorem setActiveProjectCard_mem (st : GalleryState) (k : Nat) (c : Card)
    (hc : c ∈ (setActiveProjectCard st k).cards) :
    ∃ d ∈ st.cards, c.projectId = d.projectId := by
  simp only [setActiveProjectCard] at hc
  obtain ⟨d, hd, hcd⟩ := mem_modifyAt _ _ _ c hc
  have hcd' : c.projectId = d.projectId := by
    rcases hcd with rfl | rfl <;> rfl
  cases hact : st.activeProjectCard with
  | none =>
    simp only [hact] at hd
    exact ⟨d, hd, hcd'⟩
  | some previous =>
    simp only [hact] at hd
    by_cases hp : previous = k
    · simp only [hp, ne_eq, not_true_eq_false, if_false] at hd
      exact ⟨d, hd, hcd'⟩
    · simp only [ne_eq, hp, not_false_eq_true, if_true] at hd
      obtain ⟨d', hd', hdd⟩ := mem_modifyAt _ _ _ d hd
      refine ⟨d', hd', hcd'.trans ?_⟩
      rcases hdd with rfl | rfl <;> rfl

theorem setActiveProjectCard_get (st : GalleryState) (k : Nat) (c : Card)
    (hc : st.cards[k]? = some c) :
    ∃ c', (setActiveProjectCard st k).cards[k]? = some c' ∧ c'.projectId = c.projectId := by
  simp only [setActiveProjectCard]
  cases hact : st.activeProjectCard with
  | none =>
    simp only [getElem?_modifyAt, if_true, hc, Option.map_some']
    exact ⟨_, rfl, rfl⟩
  | some previous =>
    by_cases hp : previous = k
    · simp only [hp, ne_eq, not_true_eq_false, if_false, getElem?_modifyAt, if_true, hc,
        Option.map_some']
      exact ⟨_, rfl, rfl⟩
    · simp only [ne_eq, hp, not_false_eq_true, if_true, getElem?_modifyAt, if_false, hc,
        Option.map_some']
      exact ⟨_, rfl, rfl⟩

theorem setActiveProjectCard_active (st : GalleryState) (k : Nat) :
    (setActiveProjectCard st k).activeProjectCard = some k := rfl

/-- A click on a rendered card keeps the invariant and makes the spotlight mirror the
catalog entry of the clicked card, which becomes the active card. -/
theorem clickCard_spec (st : GalleryState) (i : Nat) (hinv : GalleryInv st)
    (hi : i < st.cards.length) :
    GalleryInv (clickCard st i) ∧ (clickCard st i).cards.length = st.cards.length ∧
    SpotlightMirrorsActive (clickCard st i) := by
  obtain ⟨hsome, hkeys, hvals⟩ := hinv
  have hc : st.cards[i]? = some st.cards[i] := List.getElem?_eq_getElem hi
  obtain ⟨e, he⟩ := hkeys _ (List.getElem_mem hi)
  have hclick : clickCard st i = setSpotlight (setActiveProjectCard st i) e := by
    simp only [clickCard, hc, handleProjectSelection, he]
  rw [hclick]
  have hsome' : (setActiveProjectCard st i).spotlightElements.isSome = true := hsome
  refine ⟨⟨?_, ?_, ?_⟩, ?_, ?_⟩
  · rw [setSpotlight_isSome]; exact hsome'
  · intro c hcm
    rw [setSpotlight_cards] at hcm
    obtain ⟨d, hd, hcd⟩ := setActiveProjectCard_mem st i c hcm
    rw [setSpotlight_store, setActiveProjectCard_store, hcd]
    exact hkeys d hd
  · intro k v hkv
    rw [setSpotlight_store, setActiveProjectCard_store] at hkv
    exact hvals k v hkv
  · rw [setSpotlight_cards, length_setActiveProjectCard]
  · obtain ⟨c', hc', hid⟩ := setActiveProjectCard_get st i _ hc
    refine ⟨i, c', e, ?_, ?_, ?_, ?_⟩
    · rw [setSpotlight_active]; rfl
    · rw [setSpotlight_cards]; exact hc'
    · rw [setSpotlight_store, setActiveProjectCard_store, hid]; exact he
    · exact spotlightShows_setSpotlight _ e hsome' (hvals _ e he)

theorem clicks_foldl (clicks : List Nat) (st : GalleryState) (hinv : GalleryInv st)
    (hclicks : ∀ i ∈ clicks, i < st.cards.length) :
    GalleryInv (clicks.foldl clickCard st) ∧
    ((clicks ≠ [] ∨ SpotlightMirrorsActive st) →
      SpotlightMirrorsActive (clicks.foldl clickCard st)) := by
  induction clicks generalizing st with
  | nil =>
    refine ⟨hinv, ?_⟩
    rintro (h | h)
    · exact absurd rfl h
    · exact h
  | cons i is ih =>
    obtain ⟨h1, h2, h3⟩ := clickCard_spec st i hinv (hclicks i (List.mem_cons_self _ _))
    obtain ⟨h4, h5⟩ := ih (clickCard st i) h1 (fun x hx => by
      rw [h2]; exact hclicks x (List.mem_cons_of_mem _ hx))
    exact ⟨h4, fun _ => h5 (Or.inr h3)⟩

/-- Right after rendering, the spotlight mirrors the active card's catalog entry when
no other card carries the first card's id. -/
theorem mirrors_renderedState (els : SpotlightElements) (n0 : Project) (rest : List Project)
    (hn : IsNormalized n0)
    (hdistinct : ∀ j c0 c, 0 < j → (renderedState (some els) n0 rest).cards[0]? = some c0 →
      (renderedState (some els) n0 rest).cards[j]? = some c → c.projectId ≠ c0.projectId) :
    SpotlightMirrorsActive (renderedState (some els) n0 rest) := by
  have hrest : ∀ n ∈ rest, n.project_id ≠ n0.project_id := by
    intro n hnm
    obtain ⟨j, hj, hjn⟩ := List.getElem_of_mem hnm
    have h := hdistinct (j + 1) (activeCard n0) (inactiveCard n) (Nat.succ_pos _)
      (by rw [renderedState_cards]; simp)
      (by rw [renderedState_cards]; simp [List.getElem?_eq_getElem hj, hjn])
    exact h
  refine ⟨0, activeCard n0, n0, renderedState_active _ _ _,
    by rw [renderedState_cards]; simp, ?_, spotlightShows_renderedState els n0 rest hn⟩
  rw [renderedState_store]
  show mapGet (storeAll [(n0.project_id, n0)] rest) n0.project_id = some n0
  rw [storeAll_get_of_not_mem rest _ _ hrest]
  simp [mapGet]

/-! ## Lemmas on the pass-through branches of the asset path resolver -/

theorem rdropWhile_append_clean (pre rest : List Char) (hclean : EndsClean pre) :
    (pre ++ rest).rdropWhile isWhiteSpace = pre ++ rest.rdropWhile isWhiteSpace := by
  induction rest using List.reverseRecOn with
  | nil =>
    simp only [List.append_nil]
    rw [rdropWhile_of_endsClean hclean]
    simp [List.rdropWhile]
  | append_singleton r x ih =>
    rw [← List.append_assoc, List.rdropWhile_concat, List.rdropWhile_concat]
    by_cases hx : isWhiteSpace x = true
    · simp only [hx, if_true]
      exact ih
    · simp only [hx, if_false, Bool.false_eq_true, List.append_assoc]

/-- A clean, non-empty start of a string is still its start after trimming. -/
theorem startsWith_jsTrim (c pre : String) (hne : pre.data ≠ [])
    (hs : StartsClean pre.data) (he : EndsClean pre.data) (h : startsWith c pre = true) :
    startsWith (jsTrim c) pre = true := by
  obtain ⟨rest, rfl⟩ := (startsWith_iff c pre).mp h
  have hstart : StartsClean (pre.data ++ rest.data) := by
    intro x hx
    rw [List.head?_append_of_ne_nil _ hne] at hx
    exact hs x hx
  have htrim : (jsTrim (pre ++ rest)).data
      = pre.data ++ rest.data.rdropWhile isWhiteSpace := by
    simp only [jsTrim, trimChars, String.data_append]
    rw [dropWhile_of_startsClean hstart, rdropWhile_append_clean _ _ he]
  apply (startsWith_iff _ _).mpr
  exact ⟨⟨rest.data.rdropWhile isWhiteSpace⟩, String.ext (by rw [htrim]; simp)⟩

theorem ABSOLUTE_URL_test_jsTrim (c : String) (h : ABSOLUTE_URL_test c = true) :
    ABSOLUTE_URL_test (jsTrim c) = true := by
  simp only [ABSOLUTE_URL_test, Bool.or_eq_true] at h ⊢
  rcases h with (h | h) | h
  · exact Or.inl (Or.inl (startsWith_jsTrim c "//" (by decide)
      (by intro x hx; simp at hx; subst hx; decide)
      (by intro x hx; simp at hx; subst hx; decide) h))
  · exact Or.inl (Or.inr (startsWith_jsTrim c "http://" (by decide)
      (by intro x hx; simp at hx; subst hx; decide)
      (by intro x hx; simp at hx; subst hx; decide) h))
  · exact Or.inr (startsWith_jsTrim c "https://" (by decide)
      (by intro x hx; simp at hx; subst hx; decide)
      (by intro x hx; simp at hx; subst hx; decide) h)

/-- The branches of `resolveAssetPath` that return `trimmed`. -/
theorem resolveAssetPath_trimmed (c fb : String)
    (h : ABSOLUTE_URL_test (jsTrim c) = true ∨ startsWith (jsTrim c) "./" = true ∨
      startsWith (jsTrim c) "/" = true) :
    resolveAssetPath (.str c) fb = jsTrim c := by
  by_cases habs : ABSOLUTE_URL_test (jsTrim c) = true
  · have hne : ¬ (jsTrim c = "") := by
      intro h0
      rw [h0] at habs
      revert habs
      decide
    simp [resolveAssetPath, hne, habs]
  · have hcur : (startsWith (jsTrim c) "./" || startsWith (jsTrim c) "/") = true := by
      rcases h with h | h | h
      · exact absurd h habs
      · simp [h]
      · simp [h]
    have hne : ¬ (jsTrim c = "") := by
      intro h0
      rw [h0] at hcur
      revert hcur
      decide
    have hpar : startsWith (jsTrim c) "../" = false := by
      cases hp : startsWith (jsTrim c) "../"
      · rfl
      · exfalso
        obtain ⟨r1, hr1⟩ := (startsWith_iff _ _).mp hp
        simp only [Bool.or_eq_true] at hcur
        rcases hcur with h2 | h2
        · obtain ⟨r2, hr2⟩ := (startsWith_iff _ _).mp h2
          have := congrArg String.data (hr1.symm.trans hr2)
          simp at this
        · obtain ⟨r2, hr2⟩ := (startsWith_iff _ _).mp h2
          have := congrArg String.data (hr1.symm.trans hr2)
          simp at this
    simp only [resolveAssetPath, hne, habs, hpar, hcur, if_true, if_false,
      Bool.false_eq_true]

theorem startsClean_of_startsWith (c pre : String) (hne : pre.data ≠ [])
    (hs : StartsClean pre.data) (h : startsWith c pre = true) : StartsClean c.data := by
  obtain ⟨rest, rfl⟩ := (startsWith_iff c pre).mp h
  intro x hx
  rw [String.data_append, List.head?_append_of_ne_nil _ hne] at hx
  exact hs x hx

/-! ## Lemmas on records whose trimmed fields are strings or absent -/

theorem field_textTyped (r : RawProject) (h : r.textTyped = true) :
    (r.field (·.project_name)).isOptString = true ∧
    (r.field (·.short_description)).isOptString = true ∧
    (r.field (·.long_description)).isOptString = true ∧
    (r.field (·.url)).isOptString = true := by
  cases r with
  | none => simp [RawProject.field, JsVal.isOptString]
  | some p =>
    simp only [RawProject.textTyped, Project.textTyped, Bool.and_eq_true] at h
    simp [RawProject.field, h]

theorem normalizeProject_of_textTyped (r : RawProject) (p : Nat) (h : r.textTyped = true) :
    normalizeProject r p = some
      { project_id := (r.field (·.project_id)).or (.str ("project_" ++ toString (p + 1)))
        project_name := .str (trimmedOrDefault (r.field (·.project_name)) "Untitled Project")
        short_description :=
          .str (trimmedOrDefault (r.field (·.short_description)) "Details coming soon.")
        long_description :=
          .str (trimmedOrDefault (r.field (·.long_description))
            "Check back soon for a full project description.")
        card_image :=
          .str (resolveAssetPath (r.field (·.card_image)) ASSET_PATHS.cardPlaceholder)
        spotlight_image :=
          .str (resolveAssetPath (r.field (·.spotlight_image))
            ASSET_PATHS.spotlightPlaceholder)
        url := .str (trimmedOrDefault (r.field (·.url)) "") } := by
  obtain ⟨h2, h3, h4, h5⟩ := field_textTyped r h
  unfold normalizeProject
  dsimp only
  rw [trimOr_of_optString _ _ h2, trimOr_of_optString _ _ h3, trimOr_of_optString _ _ h4,
    trimOr_of_optString _ _ h5]
  rfl

theorem normalizeAll_of_textTyped (l : List RawProject) (index : Nat)
    (h : ∀ r ∈ l, r.textTyped = true) :
    ∃ nps, normalizeAll l index = some nps := by
  induction l generalizing index with
  | nil => exact ⟨[], rfl⟩
  | cons r rs ih =>
    obtain ⟨nps, hnps⟩ := ih (index + 1) (fun x hx => h x (List.mem_cons_of_mem _ hx))
    have hr := normalizeProject_of_textTyped r index (h r (List.mem_cons_self _ _))
    simp only [normalizeAll, hr, hnps, Option.map_some']
    exact ⟨_, rfl⟩

/-! ## Claims -/

/-- C1, as stated, fails twice.  With two fetched records sharing the id `a` and a
built-in with the id `a`, the merged list has two records with that id.  With a fetched
record and a built-in that both carry the empty string as id, the built-in is appended
after the fetched record. -/
theorem mergeProjects_dedup_counterexample :
    (withId (.str "a")
      (mergeProjects
        [some { project_id := .str "a", project_name := .str "one" },
         some { project_id := .str "a", project_name := .str "two" }]
        [{ project_id := .str "a", project_name := .str "built-in" }])).length = 2 ∧
    mergeProjects
        [some { project_id := .str "", project_name := .str "fetched" }]
        [{ project_id := .str "", project_name := .str "built-in" }]
      = [some { project_id := .str "", project_name := .str "fetched" },
         some { project_id := .str "", project_name := .str "built-in" }] := by
  decide

/-- C1 (amended). Catalog merge deduplication: for every fetched list, every built-in
list and every id that is a non-empty string carried by some fetched record, the merge
step appends no built-in with that id: the merged list is the fetched list followed by
built-ins with other ids, so its records with that id are exactly the fetched records
with that id, in order; when exactly one fetched record carries the id, the merged list
contains exactly one record with that id, the fetched one. -/
theorem mergeProjects_dedup (fetched : List RawProject) (builtins : List Project)
    (s : String) (hs : s ≠ "") (hf : ∃ r ∈ fetched, r.field (·.project_id) = .str s) :
    (∃ extra : List Project,
      mergeProjects fetched builtins = fetched ++ extra.map some ∧
      ∀ b ∈ extra, b.project_id ≠ .str s) ∧
    withId (.str s) (mergeProjects fetched builtins) = withId (.str s) fetched ∧
    (∀ r : RawProject, withId (.str s) fetched = [r] →
      withId (.str s) (mergeProjects fetched builtins) = [r]) := by
  have hv : isFetchedId fetched (.str s) = true := by
    obtain ⟨r, hr, hrs⟩ := hf
    simp only [isFetchedId, JsVal.isString, JsVal.truthy, Bool.true_and, Bool.and_eq_true,
      bne_iff_ne, ne_eq, List.any_eq_true, beq_iff_eq]
    exact ⟨hs, r, hr, hrs⟩
  have hw := withId_mergeProjects fetched builtins (.str s) hv
  refine ⟨⟨keptFrom (existingIdsOf fetched) builtins, mergeProjects_eq_forEach _ _, ?_⟩,
    hw, fun r hr => by rw [hw, hr]⟩
  intro b hb heq
  apply keptFrom_not_mem _ _ b hb
  rw [heq]
  exact (mem_existingIdsOf fetched _).mpr hv

/-- Witness for C1 (amended): a fetched list that overrides the second built-in of
`CUSTOM_PROJECTS`. -/
theorem mergeProjects_dedup_witness :
    withId (.str "project_ahmad_bizgrow")
        (mergeProjects
          [some { project_id := .str "project_ahmad_bizgrow", project_name := .str "Mine" }]
          CUSTOM_PROJECTS)
      = [some { project_id := .str "project_ahmad_bizgrow", project_name := .str "Mine" }] :=
  (mergeProjects_dedup
    [some { project_id := .str "project_ahmad_bizgrow", project_name := .str "Mine" }]
    CUSTOM_PROJECTS "project_ahmad_bizgrow" (by decide) ⟨_, List.mem_singleton.mpr rfl, rfl⟩).2.2
    _ (by decide)

/-- C2. Gallery one-active invariant: in every gallery state reached from the rendering
of a non-empty merged list by any sequence of selection requests
(`handleProjectSelection` with any id, on any rendered card), exactly one card is marked
active (has `active`, lacks `inactive`), it is the card `activeProjectCard` refers to,
and every other card is marked inactive; the number of cards stays that of the merged
list; and a selection request whose id is not a key of `projectStore` leaves the whole
state, so the active card and the spotlight, unchanged. -/
theorem gallery_one_active (page : Page) (fetched : Fetched) (builtins : List Project)
    (st0 : GalleryState) (reqs : List (JsVal × Nat))
    (hst : populateProjectsSection page fetched builtins = .rendered st0)
    (hne : mergeProjects fetched.rawProjects builtins ≠ [])
    (hreq : ∀ q ∈ reqs, q.2 < (mergeProjects fetched.rawProjects builtins).length) :
    OneActive (reqs.foldl (fun s q => handleProjectSelection s q.1 q.2) st0) ∧
    (reqs.foldl (fun s q => handleProjectSelection s q.1 q.2) st0).cards.length
      = (mergeProjects fetched.rawProjects builtins).length ∧
    ∀ (projectId : JsVal) (card : Nat),
      mapGet (reqs.foldl (fun s q => handleProjectSelection s q.1 q.2) st0).projectStore
        projectId = none →
      handleProjectSelection
          (reqs.foldl (fun s q => handleProjectSelection s q.1 q.2) st0) projectId card
        = reqs.foldl (fun s q => handleProjectSelection s q.1 q.2) st0 := by
  obtain ⟨n0, rest, hn, rfl⟩ := populate_rendered page fetched builtins st0 hst hne
  have hlen : (renderedState (buildSpotlightStructure page.spotlightTitles) n0 rest).cards.length
      = (mergeProjects fetched.rawProjects builtins).length := by
    rw [renderedState_length]
    have := (normalizeAll_spec _ _ _ hn).1
    simpa using this
  obtain ⟨h1, h2⟩ := oneActive_foldl reqs _ (oneActive_renderedState _ n0 rest)
    (fun q hq => by rw [hlen]; exact hreq q hq)
  exact ⟨h1, h2.trans hlen, fun projectId card h =>
    handleProjectSelection_unknown _ projectId card h⟩

/-- Witness for C2: the gallery rendered from a failed fetch and `CUSTOM_PROJECTS`,
after selecting the third card, a request with an unknown id on the fifth card, and the
second card. -/
theorem gallery_one_active_witness :
    OneActive
      ([(JsVal.str "project_ahmad_kasper", 2), (JsVal.str "unknown", 4),
        (JsVal.str "project_ahmad_bizgrow", 1)].foldl
        (fun s q => handleProjectSelection s q.1 q.2)
        (renderedState (some {})
          { project_id := .str "project_ahmad_portfolio_scss"
            project_name := .str "Portfolio SCSS"
            short_description := .str "Responsive personal site themed with modular SCSS."
            long_description := .str "Showcases my design system experiments using SCSS partials, mixins, and reusable components to keep styles scalable while presenting my work cleanly."
            card_image := .str "./images/personal_site_card.webp"
            spotlight_image := .str "./images/personal_site_spotlight.webp"
            url := .str "https://github.com/Ahmed-Herzalla0/Portfolio-scss" }
          (CUSTOM_PROJECTS.drop 1))) :=
  (gallery_one_active {} .failed CUSTOM_PROJECTS _
    [(JsVal.str "project_ahmad_kasper", 2), (JsVal.str "unknown", 4),
      (JsVal.str "project_ahmad_bizgrow", 1)]
    (by decide) (by decide) (by decide)).1

/-- C4, as stated, fails: a fetched array whose only record has the number 5 as
`project_name` is merged with the six built-ins into a non-empty list, but
`normalizeProject` throws a `TypeError` on the first merged record (`(5).trim` is not a
function), the card loop is abandoned and no catalog is rendered. -/
theorem catalog_never_empty_counterexample :
    CUSTOM_PROJECTS ≠ [] ∧
    (mergeProjects (Fetched.array [some { project_name := .num 5 }]).rawProjects
      CUSTOM_PROJECTS).length = 7 ∧
    normalizeProject (some { project_name := .num 5 }) 0 = none ∧
    cardLoop
      (mergeProjects (Fetched.array [some { project_name := .num 5 }]).rawProjects
        CUSTOM_PROJECTS) 0 { spotlightElements := some {} } = none ∧
    populateProjectsSection {} (.array [some { project_name := .num 5 }]) CUSTOM_PROJECTS
      = .threw := by
  decide

/-- C4 (amended). Never-empty catalog: for every fetched value (an array of records, or
a failed fetch or a non-array payload, both of which leave the empty list) and every
non-empty built-in list, the merged list is non-empty; and when in every merged record
the fields `project_name`, `short_description`, `long_description` and `url` are strings
or absent and the two render targets exist, `populateProjectsSection` normalizes every
merged record and renders a gallery whose catalog `projectStore` is non-empty and which
has one card per merged record. -/
theorem catalog_never_empty (page : Page) (fetched : Fetched) (builtins : List Project)
    (hb : builtins ≠ []) :
    Fetched.failed.rawProjects = [] ∧ Fetched.notArray.rawProjects = [] ∧
    mergeProjects fetched.rawProjects builtins ≠ [] ∧
    (page.projectList = true → page.projectSpotlight = true →
      (∀ r ∈ mergeProjects fetched.rawProjects builtins, r.textTyped = true) →
      ∃ st, populateProjectsSection page fetched builtins = .rendered st ∧
        st.projectStore ≠ [] ∧ st.cards ≠ [] ∧
        st.cards.length = (mergeProjects fetched.rawProjects builtins).length) := by
  refine ⟨rfl, rfl, mergeProjects_ne_nil _ _ hb, ?_⟩
  intro hp1 hp2 hm
  obtain ⟨nps, hn⟩ :=
    normalizeAll_of_textTyped (mergeProjects fetched.rawProjects builtins) 0 hm
  have hlen := (normalizeAll_spec _ _ _ hn).1
  cases nps with
  | nil =>
    have := mergeProjects_ne_nil fetched.rawProjects builtins hb
    simp only [List.length_nil] at hlen
    exact absurd (List.length_eq_zero.mp hlen.symm) this
  | cons n0 rest =>
    refine ⟨_, populate_of_normalizeAll page fetched builtins hp1 hp2 n0 rest hn, ?_, ?_, ?_⟩
    · rw [renderedState_store]
      exact storeAll_ne_nil _ _ (by simp)
    · rw [renderedState_cards]
      simp
    · rw [renderedState_length, ← hlen]
      simp

/-- Witness for C4 (amended): a fetched array with `null` and a record whose id is the
number 7 and whose card image is `true`, merged with `CUSTOM_PROJECTS`, is rendered with
a non-empty catalog and eight cards. -/
theorem catalog_never_empty_witness :
    ∃ st,
      populateProjectsSection {}
          (.array [none, some { project_id := .num 7, card_image := .bool true }])
          CUSTOM_PROJECTS = .rendered st ∧
      st.projectStore ≠ [] ∧ st.cards ≠ [] ∧
      st.cards.length
        = (mergeProjects
            (Fetched.array
              [none, some { project_id := .num 7, card_image := .bool true }]).rawProjects
            CUSTOM_PROJECTS).length :=
  (catalog_never_empty {}
    (.array [none, some { project_id := .num 7, card_image := .bool true }])
    CUSTOM_PROJECTS (by decide)).2.2.2 rfl rfl (by decide)

/-- C3. Catalog merge order and content: for every fetched list and every built-in
list, the merged list is the fetched records in their order followed by exactly those
built-in records, in built-in order, whose id is neither a non-empty string id of a
fetched record nor the id of an earlier built-in record; the last-resort push adds
nothing (the list after the `forEach` is already the merged list); and an empty fetched
list with the six records of `CUSTOM_PROJECTS` gives those six records in order. -/
theorem mergeProjects_order_and_content (fetched : List RawProject)
    (builtins : List Project) :
    mergeProjects fetched builtins = mergedBySpec fetched builtins ∧
    (builtins.foldl pushCustom (fetched, existingIdsOf fetched)).1
      = mergeProjects fetched builtins ∧
    mergeProjects [] CUSTOM_PROJECTS = CUSTOM_PROJECTS.map some ∧
    mergeProjects Fetched.failed.rawProjects getCustomProjects = CUSTOM_PROJECTS.map some ∧
    (mergeProjects [] CUSTOM_PROJECTS).length = 6 := by
  refine ⟨mergeProjects_eq_spec fetched builtins, ?_, by decide, by decide, by decide⟩
  rw [mergeProjects_eq_forEach, foldl_pushCustom]

/-- C10. Asset resolver rewriting and fallback: for every fallback `fb`,
`resolveAssetPath` returns `fb` when the candidate is not a string (in particular
missing) or is blank after trimming; returns `./` followed by the remainder after the
`../` when the trimmed candidate starts with `../`; and, for a non-blank trimmed
candidate that is not an absolute URL and has none of the prefixes `../`, `./`, `/`,
returns `./` followed by the trimmed candidate with one leading `.` (if any) removed.
The three examples of the claim are evaluated as well. -/
theorem resolveAssetPath_rewrite_and_fallback (fb : String) :
    (∀ v : JsVal, v.isString = false → resolveAssetPath v fb = fb) ∧
    (∀ c : String, jsTrim c = "" → resolveAssetPath (.str c) fb = fb) ∧
    (∀ c rest : String, jsTrim c = "../" ++ rest →
      resolveAssetPath (.str c) fb = "./" ++ rest) ∧
    (∀ c : String, jsTrim c ≠ "" → ABSOLUTE_URL_test (jsTrim c) = false →
      startsWith (jsTrim c) "../" = false → startsWith (jsTrim c) "./" = false →
      startsWith (jsTrim c) "/" = false →
      (∀ rest : String, jsTrim c = "." ++ rest →
        resolveAssetPath (.str c) fb = "./" ++ rest) ∧
      (startsWith (jsTrim c) "." = false →
        resolveAssetPath (.str c) fb = "./" ++ jsTrim c)) ∧
    resolveAssetPath (.str "../images/x.png") fb = "./images/x.png" ∧
    resolveAssetPath (.str "") fb = fb ∧
    resolveAssetPath (.str "photo.png") fb = "./photo.png" := by
  refine ⟨fun v h => resolveAssetPath_not_string v fb h,
    fun c h => resolveAssetPath_blank c fb h,
    fun c rest h => resolveAssetPath_parent c rest fb h, ?_, ?_, ?_, ?_⟩
  · intro c hne habs hpar hcur hroot
    have hres := resolveAssetPath_other c fb hne habs hpar hcur hroot
    constructor
    · intro rest hrest
      rw [hres, hrest, replaceLeadingDot_dot]
    · intro hdot
      rw [hres, replaceLeadingDot_other _ hdot]
  · exact resolveAssetPath_parent _ "images/x.png" fb (by decide)
  · exact resolveAssetPath_blank _ fb (by decide)
  · rw [resolveAssetPath_other _ fb (by decide) (by decide) (by decide) (by decide) (by decide)]
    decide

/-- Witness for C10: the clauses of the resolver theorem at the spotlight placeholder, with the candidates `null`, three blanks, ` ../a/b.png `,
`.hidden/pic.png` and `photo.png`. -/
theorem resolveAssetPath_rewrite_and_fallback_witness :
    resolveAssetPath .null "./images/spotlight_placeholder_bg.webp"
      = "./images/spotlight_placeholder_bg.webp" ∧
    resolveAssetPath (.str "   ") "./images/spotlight_placeholder_bg.webp"
      = "./images/spotlight_placeholder_bg.webp" ∧
    resolveAssetPath (.str " ../a/b.png ") "./images/spotlight_placeholder_bg.webp"
      = "./" ++ "a/b.png" ∧
    resolveAssetPath (.str ".hidden/pic.png") "./images/spotlight_placeholder_bg.webp"
      = "./" ++ "hidden/pic.png" ∧
    resolveAssetPath (.str "photo.png") "./images/spotlight_placeholder_bg.webp"
      = "./" ++ jsTrim "photo.png" :=
  ⟨(resolveAssetPath_rewrite_and_fallback "./images/spotlight_placeholder_bg.webp").1
      .null (by decide),
    (resolveAssetPath_rewrite_and_fallback "./images/spotlight_placeholder_bg.webp").2.1
      "   " (by decide),
    (resolveAssetPath_rewrite_and_fallback "./images/spotlight_placeholder_bg.webp").2.2.1
      " ../a/b.png " "a/b.png" (by decide),
    ((resolveAssetPath_rewrite_and_fallback "./images/spotlight_placeholder_bg.webp").2.2.2.1
      ".hidden/pic.png" (by decide) (by decide) (by decide) (by decide) (by decide)).1
      "hidden/pic.png" (by decide),
    ((resolveAssetPath_rewrite_and_fallback "./images/spotlight_placeholder_bg.webp").2.2.2.1
      "photo.png" (by decide) (by decide) (by decide) (by decide) (by decide)).2 (by decide)⟩

/-- C5, as stated, fails right after initialization when a later record shares the
first record's id: for `duplicateIdFetch` the active card is the first card, built from
the record named `First`, and the spotlight title is `First`, but the catalog entry
under the active card's id `a` is the record named `Second`. -/
theorem spotlight_mirrors_active_counterexample :
    populateProjectsSection {} duplicateIdFetch CUSTOM_PROJECTS = .rendered duplicateIdState ∧
    duplicateIdState.activeProjectCard = some 0 ∧
    (duplicateIdState.cards[0]?).map (·.projectId) = some (.str "a") ∧
    (mapGet duplicateIdState.projectStore (.str "a")).map (·.project_name)
      = some (.str "Second") ∧
    duplicateIdState.spotlightElements.map (·.title) = some (.str "First") ∧
    ¬ SpotlightMirrorsActive duplicateIdState := by
  have h0 : duplicateIdState.activeProjectCard = some 0 := by decide
  have h1 : (duplicateIdState.cards[0]?).map (·.projectId) = some (.str "a") := by decide
  have h2 : (mapGet duplicateIdState.projectStore (.str "a")).map (·.project_name)
      = some (.str "Second") := by decide
  have h3 : duplicateIdState.spotlightElements.map (·.title) = some (.str "First") := by
    decide
  refine ⟨by decide, h0, h1, h2, h3, ?_⟩
  rintro ⟨a, card, entry, ha, hc, he, els, hels, htitle, _⟩
  rw [h0] at ha
  cases ha
  rw [hc] at h1
  simp only [Option.map_some', Option.some.injEq] at h1
  rw [h1] at he
  rw [he] at h2
  rw [hels] at h3
  simp only [Option.map_some', Option.some.injEq] at h2 h3
  rw [h2, h3] at htitle
  revert htitle
  decide

/-- C5 (amended). Spotlight mirrors the active project.  Right after the gallery is
rendered the spotlight shows the normalized first record of the merged list: its
`project_name`, `long_description` and resolved `spotlight_image`, the link enabled
with `href` the record's `url` (`_blank`, `noopener noreferrer`) exactly when that url
is non-empty and otherwise disabled (no `href`, `aria-disabled`, placeholder text).
After every click on a rendered card, and also right after rendering when no other card
carries the first card's id, what the spotlight shows in this way is the catalog entry
(`projectStore`) of the active card. -/
theorem spotlight_mirrors_active (page : Page) (fetched : Fetched) (builtins : List Project)
    (st0 : GalleryState) (clicks : List Nat)
    (hst : populateProjectsSection page fetched builtins = .rendered st0)
    (hne : mergeProjects fetched.rawProjects builtins ≠ [])
    (hpage : page.spotlightTitles = true)
    (hclicks : ∀ i ∈ clicks, i < st0.cards.length) :
    (∃ r n0, (mergeProjects fetched.rawProjects builtins).head? = some r ∧
      normalizeProject r 0 = some n0 ∧ SpotlightShows st0 n0) ∧
    ((clicks ≠ [] ∨
        ∀ j c0 c, 0 < j → st0.cards[0]? = some c0 → st0.cards[j]? = some c →
          c.projectId ≠ c0.projectId) →
      SpotlightMirrorsActive (clicks.foldl clickCard st0)) := by
  obtain ⟨n0, rest, hn, rfl⟩ := populate_rendered page fetched builtins st0 hst hne
  obtain ⟨_, hnorm, hget⟩ := normalizeAll_spec _ _ _ hn
  have hels : buildSpotlightStructure page.spotlightTitles = some {} := by
    simp [buildSpotlightStructure, hpage]
  rw [hels] at hclicks ⊢
  have hn0 : IsNormalized n0 := hnorm n0 (List.mem_cons_self _ _)
  constructor
  · cases hm : mergeProjects fetched.rawProjects builtins with
    | nil => exact absurd hm hne
    | cons r rs =>
      obtain ⟨e, he1, he2⟩ := hget 0 r (by rw [hm]; simp)
      simp only [List.getElem?_cons_zero, Option.some.injEq] at he1
      subst he1
      exact ⟨r, n0, rfl, by simpa using he2, spotlightShows_renderedState _ n0 rest hn0⟩
  · intro h
    have hinv := galleryInv_renderedState {} n0 rest hnorm
    apply (clicks_foldl clicks _ hinv hclicks).2
    rcases h with h | h
    · exact Or.inl h
    · exact Or.inr (mirrors_renderedState {} n0 rest hn0 h)

/-- Witness for C5 (amended): for `duplicateIdFetch`, after a click on the first card
the spotlight mirrors the catalog entry of the active card. -/
theorem spotlight_mirrors_active_witness :
    SpotlightMirrorsActive ([0].foldl clickCard duplicateIdState) :=
  (spotlight_mirrors_active {} duplicateIdFetch CUSTOM_PROJECTS duplicateIdState [0]
    (by decide) (by decide) rfl (by decide)).2 (Or.inl (by decide))

/-- C6, as stated, fails twice.  An id of three spaces is blank, yet it is kept as it
is instead of being replaced by `project_1`: the code does not trim the id.  And a
record whose `project_name` is the number 5 gets no record at all: `normalizeProject`
throws a `TypeError`. -/
theorem normalizeProject_defaults_counterexample :
    jsTrim "   " = "" ∧
    (normalizeProject (some { project_id := .str "   " }) 0).map (·.project_id)
      = some (.str "   ") ∧
    (normalizeProject (some { project_id := .str "   " }) 0).map (·.project_id)
      ≠ some (.str "project_1") ∧
    normalizeProject (some { project_name := .num 5 }) 0 = none := by
  decide

/-- C6 (amended). Normalizer defaults: for every raw record (`null`, or an object) whose
`project_name`, `short_description`, `long_description` and `url` are strings or
absent, and every position `p`, `normalizeProject` returns a record whose `project_id`
is the raw id when that id is truthy and otherwise `project_<p+1>`: a string id is kept
exactly when it is not the empty string, without trimming, and an empty or missing id
is replaced; whose three text fields are the trimmed raw text when that is non-blank
after trimming and otherwise `Untitled Project`, `Details coming soon.` and
`Check back soon for a full project description.`; and whose `url` is the trimmed raw
url, or the empty string when the url is missing or blank. -/
theorem normalizeProject_defaults (r : RawProject) (p : Nat) (h : r.textTyped = true) :
    ∃ n : Project, normalizeProject r p = some n ∧
      n.project_id =
        (if (r.field (·.project_id)).truthy then r.field (·.project_id)
         else .str ("project_" ++ toString (p + 1))) ∧
      (∀ s : String, r.field (·.project_id) = .str s → s ≠ "" → n.project_id = .str s) ∧
      ((r.field (·.project_id) = .str "" ∨ r.field (·.project_id) = .undefined ∨
          r.field (·.project_id) = .null) →
        n.project_id = .str ("project_" ++ toString (p + 1))) ∧
      n.project_name = .str (trimmedOrDefault (r.field (·.project_name)) "Untitled Project") ∧
      n.short_description =
        .str (trimmedOrDefault (r.field (·.short_description)) "Details coming soon.") ∧
      n.long_description =
        .str (trimmedOrDefault (r.field (·.long_description))
          "Check back soon for a full project description.") ∧
      n.url = .str (trimmedOrDefault (r.field (·.url)) "") := by
  refine ⟨_, normalizeProject_of_textTyped r p h, rfl, ?_, ?_, rfl, rfl, rfl, rfl⟩
  · intro s hs hne
    simp [hs, JsVal.or, JsVal.truthy, hne]
  · rintro (hid | hid | hid) <;> simp [hid, JsVal.or, JsVal.truthy]

/-- Witness for C6 (amended): a record at position 4 with an id of two spaces, a padded
name, a blank short description, no long description and a padded url; the id is
kept. -/
theorem normalizeProject_defaults_witness :
    ∃ n : Project,
      normalizeProject
        (some { project_id := .str "  ", project_name := .str "  Demo  ",
                short_description := .str "   ", url := .str " https://x.y " }) 4 = some n ∧
      n.project_id = .str "  " ∧
      n.project_name = .str "Demo" ∧
      n.short_description = .str "Details coming soon." ∧
      n.long_description = .str "Check back soon for a full project description." ∧
      n.url = .str "https://x.y" := by
  obtain ⟨n, h, _, h1, _, h2, h3, h4, h5⟩ := normalizeProject_defaults
    (some { project_id := .str "  ", project_name := .str "  Demo  ",
            short_description := .str "   ", url := .str " https://x.y " }) 4 (by decide)
  refine ⟨n, h, h1 "  " rfl (by decide), ?_, ?_, ?_, ?_⟩
  · rw [h2]; decide
  · rw [h3]; decide
  · rw [h4]; decide
  · rw [h5]; decide

/-- C9. Normalization is idempotent: whenever `normalizeProject(r, p)` returns a record
`n`, `normalizeProject(n, q)` returns the same record, field for field, for every
position `q`; and it does return a record for every raw record of the data model
(`null`, or an object whose fields are strings or absent). -/
theorem normalizeProject_idempotent (r : RawProject) (p q : Nat) :
    (∀ n : Project, normalizeProject r p = some n → normalizeProject (some n) q = some n) ∧
    (r.wellTyped = true →
      ∃ n : Project, normalizeProject r p = some n ∧ normalizeProject (some n) q = some n) := by
  refine ⟨fun n h => normalizeProject_idem r p q n h, fun h => ?_⟩
  exact ⟨_, normalizeProject_of_wellTyped r p h,
    normalizeProject_idem r p q _ (normalizeProject_of_wellTyped r p h)⟩

/-- Witness for C9: a record with padded text, a parent-relative card image and no
spotlight image, normalized at position 2 and again at position 7. -/
theorem normalizeProject_idempotent_witness :
    ∃ n : Project,
      normalizeProject
        (some { project_name := .str " Demo ", card_image := .str "../images/a.png",
                url := .str "" }) 2 = some n ∧
      normalizeProject (some n) 7 = some n :=
  (normalizeProject_idempotent
    (some { project_name := .str " Demo ", card_image := .str "../images/a.png",
            url := .str "" }) 2 7).2 (by decide)

/-- C7, as stated, fails: an email of one space is empty after trimming, yet
`validateFormFields` reports it as an invalid address, not as a missing one. -/
theorem validateFormFields_blank_email_counterexample :
    jsTrim " " = "" ∧
    (validateFormFields " " "hi").email ≠ "Please enter your email address." ∧
    (validateFormFields " " "hi").email = "Please enter a valid email address." := by
  decide

/-- C7 (amended). Form validator rule table, first match per field.  Email: the empty
string gives `Please enter your email address.` (the function does not trim the email;
the submit listener passes the trimmed input, so there the test is "empty after
trimming"); else a character outside letters, digits, `@`, `.`, `_`, `-` and white space
gives the special-character message; else failing the `local@domain.tld` shape gives
`Please enter a valid email address.`; else no error.  Message: empty after trimming
gives `Please enter a message before submitting.`; else a character outside the same
class gives the special-character message; else an untrimmed length above 300 gives
`Please keep your message within 300 characters.`; else no error. -/
theorem validateFormFields_rule_table (email message : String) :
    (email = "" →
      (validateFormFields email message).email = "Please enter your email address.") ∧
    (email ≠ "" → (∃ c ∈ email.data, isLegalChar c = false) →
      (validateFormFields email message).email
        = "Remove special characters from your email address.") ∧
    (email ≠ "" → (∀ c ∈ email.data, isLegalChar c = true) → ¬ EmailShape email →
      (validateFormFields email message).email = "Please enter a valid email address.") ∧
    (email ≠ "" → (∀ c ∈ email.data, isLegalChar c = true) → EmailShape email →
      (validateFormFields email message).email = "") ∧
    (jsTrim message = "" →
      (validateFormFields email message).message
        = "Please enter a message before submitting.") ∧
    (jsTrim message ≠ "" → (∃ c ∈ message.data, isLegalChar c = false) →
      (validateFormFields email message).message
        = "Please remove special characters from your message.") ∧
    (jsTrim message ≠ "" → (∀ c ∈ message.data, isLegalChar c = true) →
      jsLength message > 300 →
      (validateFormFields email message).message
        = "Please keep your message within 300 characters.") ∧
    (jsTrim message ≠ "" → (∀ c ∈ message.data, isLegalChar c = true) →
      jsLength message ≤ 300 →
      (validateFormFields email message).message = "") ∧
    (∀ emailInput : String, jsTrim emailInput = "" →
      (submitValidation emailInput message).email = "Please enter your email address.") ∧
    (validateFormFields "" "hi").email ≠ "" ∧
    (validateFormFields "" "hi").message = "" ∧
    (validateFormFields "a@b.co" ⟨List.replicate 301 'x'⟩).message
      = "Please keep your message within 300 characters." ∧
    validateFormFields "a@b.co" "valid message" = { email := "", message := "" } := by
  have hill : ∀ s : String, (∀ c ∈ s.data, isLegalChar c = true) →
      ILLEGAL_CHAR_PATTERN_test s = false := by
    intro s hs
    cases h : ILLEGAL_CHAR_PATTERN_test s
    · rfl
    · obtain ⟨c, hc, hc'⟩ := (ILLEGAL_CHAR_PATTERN_test_iff s).mp h
      rw [hs c hc] at hc'
      cases hc'
  have hmax : toString MAX_MESSAGE_LENGTH = "300" := by decide
  have hmsg : "Please keep your message within " ++ "300" ++ " characters."
      = "Please keep your message within 300 characters." := by decide
  refine ⟨?_, ?_, ?_, ?_, ?_, ?_, ?_, ?_, ?_, ?_, ?_, ?_, ?_⟩
  · intro h
    simp [validateFormFields, h]
  · intro h hc
    have := (ILLEGAL_CHAR_PATTERN_test_iff email).mpr hc
    simp [validateFormFields, h, this]
  · intro h hc hs
    have h1 := hill email hc
    have h2 : EMAIL_VALIDATION_PATTERN_test email = false := by
      cases h3 : EMAIL_VALIDATION_PATTERN_test email
      · rfl
      · exact absurd ((EMAIL_VALIDATION_PATTERN_test_iff email).mp h3) hs
    simp [validateFormFields, h, h1, h2]
  · intro h hc hs
    have h1 := hill email hc
    have h2 := (EMAIL_VALIDATION_PATTERN_test_iff email).mpr hs
    simp [validateFormFields, h, h1, h2]
  · intro h
    simp [validateFormFields, h]
  · intro h hc
    have := (ILLEGAL_CHAR_PATTERN_test_iff message).mpr hc
    simp [validateFormFields, h, this]
  · intro h hc hlen
    have h1 := hill message hc
    have h2 : jsLength message > MAX_MESSAGE_LENGTH := hlen
    simp only [validateFormFields, h, h1, h2, hmax, if_true, if_false, Bool.false_eq_true]
    exact hmsg
  · intro h hc hlen
    have h1 := hill message hc
    have h2 : ¬ jsLength message > MAX_MESSAGE_LENGTH := Nat.not_lt.mpr hlen
    simp only [validateFormFields, h, h1, h2, if_true, if_false, Bool.false_eq_true]
  · intro emailInput h
    simp [submitValidation, validateFormFields, h]
  · decide
  · decide
  · exact validateFormFields_long_xs 301 (by decide)
  · decide

/-- Witness for C7 (amended): the rule table at `a.b@c` (no top-level domain) with a
message of one exclamation mark, and the submit listener at an email of two spaces. -/
theorem validateFormFields_rule_table_witness :
    (validateFormFields "a.b@c" "!").email = "Please enter a valid email address." ∧
    (validateFormFields "a.b@c" "!").message
      = "Please remove special characters from your message." ∧
    (submitValidation "  " "!").email = "Please enter your email address." :=
  ⟨(validateFormFields_rule_table "a.b@c" "!").2.2.1 (by decide) (by decide)
      (fun h => by
        have := (EMAIL_VALIDATION_PATTERN_test_iff "a.b@c").mpr h
        revert this
        decide),
    (validateFormFields_rule_table "a.b@c" "!").2.2.2.2.2.1 (by decide)
      ⟨'!', by decide, by decide⟩,
    (validateFormFields_rule_table "a.b@c" "!").2.2.2.2.2.2.2.2.1 "  " (by decide)⟩

/-- C8, as stated, fails: for `bad email` the email error is not the special-character
message. -/
theorem validateFormFields_bad_email_counterexample :
    (validateFormFields "bad email" "ok").email
      ≠ "Remove special characters from your email address." := by
  decide

/-- C8 (amended). `validateFormFields('bad email', 'ok')` returns, as its email error,
`Please enter a valid email address.`: no character of `bad email` is outside the legal
class (white space is legal), and the address fails the shape pattern. -/
theorem validateFormFields_bad_email :
    ILLEGAL_CHAR_PATTERN_test "bad email" = false ∧
    EMAIL_VALIDATION_PATTERN_test "bad email" = false ∧
    (validateFormFields "bad email" "ok").email = "Please enter a valid email address." ∧
    (validateFormFields "bad email" "ok").message = "" := by
  decide

/-- C11, as stated, fails: a candidate that matches the absolute-URL pattern, or starts
with `./` or with `/`, and ends in a space is not returned unchanged; the space is
trimmed off. -/
theorem resolveAssetPath_pass_through_counterexample :
    ABSOLUTE_URL_test "https://x/y.png " = true ∧
    resolveAssetPath (.str "https://x/y.png ") "./images/card_placeholder_bg.webp"
      ≠ "https://x/y.png " ∧
    resolveAssetPath (.str "https://x/y.png ") "./images/card_placeholder_bg.webp"
      = "https://x/y.png" ∧
    startsWith "./a.png " "./" = true ∧
    resolveAssetPath (.str "./a.png ") "./images/card_placeholder_bg.webp" = "./a.png" ∧
    startsWith "/a.png " "/" = true ∧
    resolveAssetPath (.str "/a.png ") "./images/card_placeholder_bg.webp" = "/a.png" := by
  decide

/-- C11 (amended). Asset resolver pass-through: for every fallback and every candidate
string whose trimmed form matches the absolute-URL pattern (an optional `http:` or
`https:` followed by `//`) or starts with `./` or with `/`, `resolveAssetPath` returns
the trimmed candidate; this covers every candidate that itself matches the pattern or
starts with `./` or `/`, and such a candidate is returned unchanged when it does not
end in white space.  The examples `https://x/y.png` and `//cdn/x.png` are returned
unchanged. -/
theorem resolveAssetPath_pass_through (fb : String) :
    (∀ c : String,
      (ABSOLUTE_URL_test (jsTrim c) = true ∨ startsWith (jsTrim c) "./" = true ∨
        startsWith (jsTrim c) "/" = true) →
      resolveAssetPath (.str c) fb = jsTrim c) ∧
    (∀ c : String,
      (ABSOLUTE_URL_test c = true ∨ startsWith c "./" = true ∨ startsWith c "/" = true) →
      resolveAssetPath (.str c) fb = jsTrim c ∧
      (EndsClean c.data → resolveAssetPath (.str c) fb = c)) ∧
    resolveAssetPath (.str "https://x/y.png") fb = "https://x/y.png" ∧
    resolveAssetPath (.str "//cdn/x.png") fb = "//cdn/x.png" := by
  have hcur : ∀ c : String, startsWith c "./" = true → startsWith (jsTrim c) "./" = true :=
    fun c h => startsWith_jsTrim c "./" (by decide)
      (by intro x hx; simp at hx; subst hx; decide)
      (by intro x hx; simp at hx; subst hx; decide) h
  have hroot : ∀ c : String, startsWith c "/" = true → startsWith (jsTrim c) "/" = true :=
    fun c h => startsWith_jsTrim c "/" (by decide)
      (by intro x hx; simp at hx; subst hx; decide)
      (by intro x hx; simp at hx; subst hx; decide) h
  have hstart : ∀ c : String,
      (ABSOLUTE_URL_test c = true ∨ startsWith c "./" = true ∨ startsWith c "/" = true) →
      StartsClean c.data := by
    intro c h
    rcases h with h | h | h
    · simp only [ABSOLUTE_URL_test, Bool.or_eq_true] at h
      rcases h with (h | h) | h
      · exact startsClean_of_startsWith c "//" (by decide)
          (by intro x hx; simp at hx; subst hx; decide) h
      · exact startsClean_of_startsWith c "http://" (by decide)
          (by intro x hx; simp at hx; subst hx; decide) h
      · exact startsClean_of_startsWith c "https://" (by decide)
          (by intro x hx; simp at hx; subst hx; decide) h
    · exact startsClean_of_startsWith c "./" (by decide)
        (by intro x hx; simp at hx; subst hx; decide) h
    · exact startsClean_of_startsWith c "/" (by decide)
        (by intro x hx; simp at hx; subst hx; decide) h
  have hlift : ∀ c : String,
      (ABSOLUTE_URL_test c = true ∨ startsWith c "./" = true ∨ startsWith c "/" = true) →
      resolveAssetPath (.str c) fb = jsTrim c := by
    intro c h
    apply resolveAssetPath_trimmed
    rcases h with h | h | h
    · exact Or.inl (ABSOLUTE_URL_test_jsTrim c h)
    · exact Or.inr (Or.inl (hcur c h))
    · exact Or.inr (Or.inr (hroot c h))
  refine ⟨fun c h => resolveAssetPath_trimmed c fb h, ?_, ?_, ?_⟩
  · intro c h
    refine ⟨hlift c h, fun hend => ?_⟩
    rw [hlift c h]
    exact jsTrim_of_clean (hstart c h) hend
  · rw [hlift _ (Or.inl (by decide))]
    decide
  · rw [hlift _ (Or.inl (by decide))]
    decide

/-- Witness for C11 (amended): a padded absolute URL is returned trimmed, and a
root-relative path without trailing white space is returned unchanged. -/
theorem resolveAssetPath_pass_through_witness :
    resolveAssetPath (.str "  http://cdn.example/x.png ") "./images/card_placeholder_bg.webp"
      = jsTrim "  http://cdn.example/x.png " ∧
    resolveAssetPath (.str "/images/x.png") "./images/card_placeholder_bg.webp"
      = "/images/x.png" :=
  ⟨(resolveAssetPath_pass_through "./images/card_placeholder_bg.webp").1
      "  http://cdn.example/x.png " (Or.inl (by decide)),
    ((resolveAssetPath_pass_through "./images/card_placeholder_bg.webp").2.1
      "/images/x.png" (Or.inr (Or.inr (by decide)))).2
      (by intro x hx; simp at hx; subst hx; decide)⟩

end Portfolio
